import Mathlib

/-!
Verification development for the flobot event-dispatch core.

Strings from the Rust source are modelled as lists of bytes (`List Nat`),
matching the byte-level operations (`str::find`, `as_bytes` indexing) used
by the code.  Time instants and durations are modelled as natural numbers
counted in seconds (the code uses `std::time::Instant` / `Duration` with
whole-second constants).  External collaborators (persistence layer, chat
client, regex compiler) are modelled as explicit oracles passed in as
function arguments; the calls the code makes to them are recorded in an
action trace so that theorems can speak about which calls were issued.
-/

/-- UTF-8 encoding of a single Unicode code point, as byte values. -/
def utf8Char (c : Nat) : List Nat :=
  if c < 0x80 then [c]
  else if c < 0x800 then [0xC0 + c / 64, 0x80 + c % 64]
  else if c < 0x10000 then [0xE0 + c / 4096, 0x80 + (c / 64) % 64, 0x80 + c % 64]
  else [0xF0 + c / 262144, 0x80 + (c / 4096) % 64, 0x80 + (c / 64) % 64, 0x80 + c % 64]

/-- UTF-8 bytes of a Lean string literal, used to transcribe Rust string literals. -/
def utf8 (s : String) : List Nat :=
  (s.toList.map (fun c => utf8Char c.toNat)).flatten

/-- `u8::is_ascii_whitespace`: space, horizontal tab, line feed, form feed, carriage return. -/
def isAsciiWs (b : Nat) : Bool :=
  b == 32 || b == 9 || b == 10 || b == 12 || b == 13

/-- Boolean test that `f` is a prefix of `m` (byte lists). -/
def isPre : List Nat → List Nat → Bool
  | [], _ => true
  | _ :: _, [] => false
  | a :: as, b :: bs => a == b && isPre as bs

theorem isPre_iff (f m : List Nat) : isPre f m = true ↔ f <+: m := by
  induction f generalizing m with
  | nil => simp [isPre]
  | cons a as ih =>
    cases m with
    | nil => simp [isPre]
    | cons b bs =>
      simp only [isPre, Bool.and_eq_true, beq_iff_eq, List.cons_prefix_cons, ih]

/-- `str::find` on byte lists: index of the first occurrence of `f` in `m`,
returning the least `i` such that `f` is a prefix of `m.drop i` (and `some 0`
for the empty needle, as in Rust). -/
def strFind (m f : List Nat) : Option Nat :=
  if isPre f m then some 0
  else
    match m with
    | [] => none
    | _ :: t => (strFind t f).map (· + 1)

/-- `f` occurs in `m` at byte position `i`. -/
def occursAt (f m : List Nat) (i : Nat) : Prop := f <+: m.drop i

theorem strFind_some_occurs {m f : List Nat} {i : Nat} (h : strFind m f = some i) :
    occursAt f m i := by
  induction m generalizing i with
  | nil =>
    unfold strFind at h
    split at h
    · simp only [Option.some.injEq] at h
      subst h
      exact (isPre_iff _ _).mp (by assumption)
    · exact absurd h (by simp)
  | cons b t ih =>
    unfold strFind at h
    split at h
    · simp only [Option.some.injEq] at h
      subst h
      exact (isPre_iff _ _).mp (by assumption)
    · simp only [Option.map_eq_some'] at h
      obtain ⟨j, hj, hji⟩ := h
      subst hji
      simpa [occursAt] using ih hj

theorem strFind_some_min {m f : List Nat} {i : Nat} (h : strFind m f = some i) :
    ∀ j, j < i → ¬ occursAt f m j := by
  induction m generalizing i with
  | nil =>
    unfold strFind at h
    split at h
    · simp only [Option.some.injEq] at h
      omega
    · exact absurd h (by simp)
  | cons b t ih =>
    unfold strFind at h
    split at h
    · simp only [Option.some.injEq] at h
      omega
    · simp only [Option.map_eq_some'] at h
      obtain ⟨k, hk, hki⟩ := h
      subst hki
      intro j hj hocc
      cases j with
      | zero =>
        exact absurd ((isPre_iff f (b :: t)).mpr (by simpa [occursAt] using hocc)) (by assumption)
      | succ j' =>
        exact ih hk j' (by omega) (by simpa [occursAt] using hocc)

theorem strFind_none {m f : List Nat} (h : strFind m f = none) :
    ∀ j, ¬ occursAt f m j := by
  induction m with
  | nil =>
    unfold strFind at h
    split at h
    · exact absurd h (by simp)
    · intro j hocc
      have : f = [] := List.prefix_nil.mp (by simpa [occursAt] using hocc)
      subst this
      simp [isPre] at *
  | cons b t ih =>
    unfold strFind at h
    split at h
    · exact absurd h (by simp)
    · simp only [Option.map_eq_none'] at h
      intro j hocc
      cases j with
      | zero =>
        exact absurd ((isPre_iff f (b :: t)).mpr (by simpa [occursAt] using hocc)) (by assumption)
      | succ j' =>
        exact ih h j' (by simpa [occursAt] using hocc)

/-- `valid_match` from `src/lib/handlers/trigger.rs`: find the first raw occurrence
of `f` in `m`; when present, accept only if the byte just before the occurrence
(when it does not start the string) and the byte just after it (when it does not
end the string) are ASCII whitespace. -/
def valid_match (f m : List Nat) : Bool :=
  match strFind m f with
  | none => false
  | some start =>
    let e := start + f.length - 1
    let left : Bool := if start > 0 then isAsciiWs (m.getD (start - 1) 0) else true
    let right : Bool := if e + 1 < m.length then isAsciiWs (m.getD (e + 1) 0) else true
    left && right

/-- The property stated by the specification: the needle occurs, and at the
first occurrence the flanking bytes are absent or ASCII whitespace. -/
def firstOccFlanked (f m : List Nat) : Prop :=
  ∃ i, occursAt f m i ∧ (∀ j, j < i → ¬ occursAt f m j) ∧
    (0 < i → isAsciiWs (m.getD (i - 1) 0) = true) ∧
    (i + f.length < m.length → isAsciiWs (m.getD (i + f.length) 0) = true)

theorem strFind_isSome_of_occurs {m f : List Nat} {j : Nat} (h : occursAt f m j) :
    ∃ i, strFind m f = some i := by
  cases hs : strFind m f with
  | none => exact absurd h (strFind_none hs j)
  | some i => exact ⟨i, rfl⟩

/-- C1: for every non-empty needle and every haystack, `valid_match` is true
iff the needle occurs as a raw substring and, at the first occurrence, the
byte just before (when present) and the byte just after (when present) are
ASCII whitespace; moreover U+00A0 (non-breaking space) does not count as a
boundary, as in the concrete example from the specification. -/
theorem c1_valid_match_first_occurrence (f m : List Nat) (hne : f ≠ []) :
    (valid_match f m = true ↔ firstOccFlanked f m) ∧
    valid_match (utf8 "trig") (utf8 "no\u00A0trig\u00A0no") = false := by
  refine ⟨?_, by decide⟩
  have hlen : 1 ≤ f.length := by
    cases f with
    | nil => exact absurd rfl hne
    | cons a t => simp
  unfold valid_match
  cases hs : strFind m f with
  | none =>
    simp only [Bool.false_eq_true, false_iff]
    rintro ⟨i, hocc, -, -⟩
    exact strFind_none hs i hocc
  | some s =>
    have he1 : s + f.length - 1 + 1 = s + f.length := by omega
    simp only [he1, Bool.and_eq_true]
    constructor
    · rintro ⟨hleft, hright⟩
      refine ⟨s, strFind_some_occurs hs, strFind_some_min hs, ?_, ?_⟩
      · intro hpos
        simpa [hpos] using hleft
      · intro hlt
        simpa [hlt] using hright
    · rintro ⟨i, hocc, hmin, hl, hr⟩
      have hi : i = s := by
        rcases Nat.lt_trichotomy i s with h | h | h
        · exact absurd hocc (strFind_some_min hs i h)
        · exact h
        · exact absurd (strFind_some_occurs hs) (hmin s h)
      subst hi
      constructor
      · by_cases h0 : i > 0
        · simpa [h0] using hl h0
        · simp [h0]
      · by_cases hlt : i + f.length < m.length
        · simpa [hlt] using hr hlt
        · simp [hlt]

/-- Witness for C1 at a concrete input. -/
theorem c1_valid_match_first_occurrence_witness :
    utf8 "trig" ≠ [] ∧ firstOccFlanked (utf8 "trig") (utf8 "yes trig yes") :=
  ⟨by decide,
   ((c1_valid_match_first_occurrence (utf8 "trig") (utf8 "yes trig yes")
      (by decide)).1).mp (by decide)⟩

/-- `valid_match` with Rust partiality made explicit: `none` models a panic.
The subtraction `start + find.len() - 1` is checked for usize underflow and
every byte index is looked up with a bounds check, mirroring the panicking
operations of the source. -/
def valid_match_checked (f m : List Nat) : Option Bool :=
  match strFind m f with
  | none => some false
  | some start =>
    if start + f.length = 0 then none
    else
      let e := start + f.length - 1
      let left : Option Bool :=
        if start > 0 then (m.get? (start - 1)).map isAsciiWs else some true
      match left with
      | none => none
      | some false => some false
      | some true =>
        if e + 1 < m.length then
          match m.get? (e + 1) with
          | none => none
          | some b => some (isAsciiWs b)
        else some true

theorem strFind_le_length {m f : List Nat} {i : Nat} (h : strFind m f = some i) :
    i + f.length ≤ m.length := by
  have hocc : f <+: m.drop i := strFind_some_occurs h
  have hlen := List.IsPrefix.length_le hocc
  have hdrop : (m.drop i).length = m.length - i := List.length_drop i m
  by_cases hil : i ≤ m.length
  · omega
  · push_neg at hil
    rw [List.drop_eq_nil_of_le (le_of_lt hil)] at hocc
    have hf : f = [] := List.prefix_nil.mp hocc
    subst hf
    have h0 : strFind m [] = some 0 := by cases m <;> simp [strFind, isPre]
    rw [h0] at h
    simp only [Option.some.injEq] at h
    simp
    omega

theorem valid_match_eq_of_some {f m : List Nat} {s : Nat} (hs : strFind m f = some s) :
    valid_match f m =
      ((if s > 0 then isAsciiWs (m.getD (s - 1) 0) else true) &&
       (if s + f.length - 1 + 1 < m.length then isAsciiWs (m.getD (s + f.length - 1 + 1) 0) else true)) := by
  unfold valid_match
  rw [hs]

theorem valid_match_checked_eq_of_some {f m : List Nat} {s : Nat} (hs : strFind m f = some s) :
    valid_match_checked f m =
      (if s + f.length = 0 then none
       else
        match (if s > 0 then (m.get? (s - 1)).map isAsciiWs else some true) with
        | none => none
        | some false => some false
        | some true =>
          if s + f.length - 1 + 1 < m.length then
            match m.get? (s + f.length - 1 + 1) with
            | none => none
            | some b => some (isAsciiWs b)
          else some true) := by
  unfold valid_match_checked
  rw [hs]

/-- C10: for a non-empty needle no panicking operation of `valid_match` is
reachable — the checked variant returns `some` and agrees with the total
model — while for the empty needle `find` returns position 0 on every
haystack and the index computation `start + len - 1` underflows, i.e. the
checked variant returns `none` (a panic). -/
theorem c10_valid_match_partiality (f m : List Nat) :
    (f ≠ [] → valid_match_checked f m = some (valid_match f m)) ∧
    (f = [] → strFind m f = some 0 ∧ valid_match_checked f m = none) := by
  constructor
  · intro hne
    have hlen : 1 ≤ f.length := by
      cases f with
      | nil => exact absurd rfl hne
      | cons a t => simp
    cases hs : strFind m f with
    | none =>
      unfold valid_match_checked valid_match
      rw [hs]
    | some s =>
      have hnz : ¬ (s + f.length = 0) := by omega
      have hbound := strFind_le_length hs
      rw [valid_match_checked_eq_of_some hs, valid_match_eq_of_some hs]
      simp only [hnz, if_false]
      by_cases h0 : s > 0
      · have hidx : s - 1 < m.length := by omega
        have e1 : m.get? (s - 1) = some (m.getD (s - 1) 0) := by
          rw [List.get?_eq_getElem?, List.getElem?_eq_getElem hidx,
            List.getD_eq_getElem m 0 hidx]
        simp only [h0, if_true, e1, Option.map_some']
        cases hws : isAsciiWs (m.getD (s - 1) 0) with
        | false => simp
        | true =>
          simp only [Bool.true_and]
          by_cases hlt : s + f.length - 1 + 1 < m.length
          · have e2 : m.get? (s + f.length - 1 + 1) = some (m.getD (s + f.length - 1 + 1) 0) := by
              rw [List.get?_eq_getElem?, List.getElem?_eq_getElem hlt,
                List.getD_eq_getElem m 0 hlt]
            simp [hlt, e2]
          · simp [hlt]
      · simp only [h0, if_false, Bool.true_and]
        by_cases hlt : s + f.length - 1 + 1 < m.length
        · have e2 : m.get? (s + f.length - 1 + 1) = some (m.getD (s + f.length - 1 + 1) 0) := by
            rw [List.get?_eq_getElem?, List.getElem?_eq_getElem hlt,
              List.getD_eq_getElem m 0 hlt]
          simp [hlt, e2]
        · simp [hlt]
  · intro he
    subst he
    have hfind : strFind m [] = some 0 := by
      cases m <;> simp [strFind, isPre]
    refine ⟨hfind, ?_⟩
    unfold valid_match_checked
    rw [hfind]
    simp

/-- Witness for C10 at concrete inputs. -/
theorem c10_valid_match_partiality_witness :
    (utf8 "trig" ≠ [] ∧
      valid_match_checked (utf8 "trig") (utf8 "no trig") = some (valid_match (utf8 "trig") (utf8 "no trig"))) ∧
    (strFind (utf8 "anything") [] = some 0 ∧ valid_match_checked [] (utf8 "anything") = none) :=
  ⟨⟨by decide, (c10_valid_match_partiality (utf8 "trig") (utf8 "no trig")).1 (by decide)⟩,
   (c10_valid_match_partiality [] (utf8 "anything")).2 rfl⟩

/-- Association-list model of the `HashMap` inside `Tempo`: keys are unique
(insert overwrites in place). -/
def mapInsert {K V : Type} [DecidableEq K] (k : K) (v : V) : List (K × V) → List (K × V)
  | [] => [(k, v)]
  | (k', v') :: t => if k' = k then (k, v) :: t else (k', v') :: mapInsert k v t

def mapLookup {K V : Type} [DecidableEq K] (k : K) : List (K × V) → Option V
  | [] => none
  | (k', v') :: t => if k' = k then some v' else mapLookup k t

def mapRemove {K V : Type} [DecidableEq K] (k : K) : List (K × V) → List (K × V)
  | [] => []
  | (k', v') :: t => if k' = k then t else (k', v') :: mapRemove k t

/-- State of the `Tempo` TTL store: key to expiry instant. -/
abbrev TempoStore (K : Type) : Type := List (K × Nat)

/-- `Tempo::set` from `src/lib/db/tempo.rs`: insert or overwrite the key,
expiring at `now + ttl`. -/
def tempoSet {K : Type} [DecidableEq K] (now : Nat) (k : K) (ttl : Nat)
    (st : TempoStore K) : TempoStore K :=
  mapInsert k (now + ttl) st

/-- `Tempo::exists` from `src/lib/db/tempo.rs`: the key is present iff an
entry exists whose expiry is strictly after `now`; an entry found expired
(`expire_in <= now`) is removed as a side effect. -/
def tempoExists {K : Type} [DecidableEq K] (now : Nat) (k : K)
    (st : TempoStore K) : Bool × TempoStore K :=
  match mapLookup k st with
  | some expire_in => if expire_in ≤ now then (false, mapRemove k st) else (true, st)
  | none => (false, st)

theorem mapLookup_insert {K V : Type} [DecidableEq K] (k : K) (v : V) (st : List (K × V)) :
    mapLookup k (mapInsert k v st) = some v := by
  induction st with
  | nil => simp [mapInsert, mapLookup]
  | cons p t ih =>
    obtain ⟨k', v'⟩ := p
    by_cases h : k' = k <;> simp [mapInsert, mapLookup, h, ih]

theorem mapLookup_insert_ne {K V : Type} [DecidableEq K] {k k' : K} (hne : k ≠ k')
    (v : V) (st : List (K × V)) :
    mapLookup k' (mapInsert k v st) = mapLookup k' st := by
  induction st with
  | nil => simp [mapInsert, mapLookup, hne]
  | cons p t ih =>
    obtain ⟨a, b⟩ := p
    by_cases h : a = k
    · subst h
      simp [mapInsert, mapLookup, hne]
    · by_cases h2 : a = k'
      · subst h2
        simp [mapInsert, mapLookup, h]
      · simp [mapInsert, mapLookup, h, h2, ih]

theorem mapLookup_eq_none {K V : Type} [DecidableEq K] {k : K} {st : List (K × V)}
    (h : k ∉ st.map Prod.fst) : mapLookup k st = none := by
  induction st with
  | nil => rfl
  | cons p t ih =>
    obtain ⟨a, b⟩ := p
    simp only [List.map_cons, List.mem_cons] at h
    push_neg at h
    have ha : ¬ (a = k) := fun hh => h.1 hh.symm
    simp [mapLookup, ha, ih h.2]

theorem mapLookup_remove {K V : Type} [DecidableEq K] (k : K) (st : List (K × V))
    (huniq : (st.map Prod.fst).Nodup) :
    mapLookup k (mapRemove k st) = none := by
  induction st with
  | nil => rfl
  | cons p t ih =>
    obtain ⟨a, b⟩ := p
    simp only [List.map_cons, List.nodup_cons] at huniq
    by_cases h : a = k
    · subst h
      simp only [mapRemove, if_pos rfl]
      exact mapLookup_eq_none huniq.1
    · simp [mapRemove, mapLookup, h, ih huniq.2]

theorem mapLookup_remove_ne {K V : Type} [DecidableEq K] {k k' : K} (hne : k ≠ k')
    (st : List (K × V)) :
    mapLookup k' (mapRemove k st) = mapLookup k' st := by
  induction st with
  | nil => rfl
  | cons p t ih =>
    obtain ⟨a, b⟩ := p
    by_cases h : a = k
    · subst h
      simp [mapRemove, mapLookup, hne]
    · by_cases h2 : a = k'
      · subst h2
        simp [mapRemove, mapLookup, h]
      · simp [mapRemove, mapLookup, h, h2, ih]

/-- A store in which keys are unique, as guaranteed by the `HashMap`. -/
def storeWf {K : Type} (st : TempoStore K) : Prop := (st.map Prod.fst).Nodup

/-- C2 (amended): after `set(k, ttl)` with a strictly positive `ttl`, an
`exists(k)` at the same instant is true; a key is present iff an entry
exists whose expiry is strictly in the future; once the clock reaches or
passes the expiry, `exists` is false and removes the entry, and a second
`exists` is false and leaves the store unchanged (nothing to re-remove). -/
theorem c2_tempo_ttl {K : Type} [DecidableEq K] (k : K) (st : TempoStore K)
    (now later ttl : Nat) (hwf : storeWf st) :
    (0 < ttl → (tempoExists now k (tempoSet now k ttl st)).1 = true) ∧
    ((tempoExists now k st).1 = true ↔ ∃ e, mapLookup k st = some e ∧ now < e) ∧
    (∀ e, mapLookup k st = some e → e ≤ later →
      tempoExists later k st = (false, mapRemove k st) ∧
      mapLookup k (mapRemove k st) = none ∧
      tempoExists later k (mapRemove k st) = (false, mapRemove k st)) := by
  refine ⟨?_, ?_, ?_⟩
  · intro hpos
    unfold tempoExists tempoSet
    rw [mapLookup_insert]
    have : ¬ (now + ttl ≤ now) := by omega
    simp [this]
  · constructor
    · intro h
      unfold tempoExists at h
      cases hl : mapLookup k st with
      | none => rw [hl] at h; simp at h
      | some e =>
        rw [hl] at h
        by_cases hle : e ≤ now
        · simp [hle] at h
        · exact ⟨e, rfl, by omega⟩
    · rintro ⟨e, hl, hlt⟩
      unfold tempoExists
      rw [hl]
      have : ¬ (e ≤ now) := by omega
      simp [this]
  · intro e hl hle
    have hrm : mapLookup k (mapRemove k st) = none := mapLookup_remove k st hwf
    refine ⟨?_, hrm, ?_⟩
    · unfold tempoExists
      rw [hl]
      simp [hle]
    · unfold tempoExists
      rw [hrm]

/-- Witness for C2 at concrete inputs. -/
theorem c2_tempo_ttl_witness :
    (0 < 3 ∧ (tempoExists 0 0 (tempoSet 0 (0 : Nat) 3 ([] : TempoStore Nat))).1 = true) ∧
    ((tempoExists 0 0 ([(0, 3)] : TempoStore Nat)).1 = true) ∧
    (tempoExists 5 0 ([(0, 3)] : TempoStore Nat) = (false, []) ∧
      mapLookup 0 (mapRemove 0 ([(0, 3)] : TempoStore Nat)) = none ∧
      tempoExists 5 0 (mapRemove 0 ([(0, 3)] : TempoStore Nat)) = (false, mapRemove 0 ([(0, 3)] : TempoStore Nat))) := by
  have hwf1 : storeWf ([(0, 3)] : TempoStore Nat) := by unfold storeWf; decide
  have hwf2 : storeWf ([] : TempoStore Nat) := by unfold storeWf; decide
  have h := c2_tempo_ttl (K := Nat) 0 ([(0, 3)] : TempoStore Nat) 0 5 3 hwf1
  have h2 := c2_tempo_ttl (K := Nat) 0 ([] : TempoStore Nat) 0 5 3 hwf2
  exact ⟨⟨by decide, h2.1 (by decide)⟩,
         (h.2.1).mpr ⟨3, by decide, by decide⟩,
         h.2.2 3 (by decide) (by decide)⟩

/-- C2 counterexample: as literally stated the claim quantifies over every
duration, but with `ttl = 0` the entry expires at the very instant it is
set (`expire_in <= now`), so an immediate `exists` is already false. -/
theorem c2_tempo_ttl_counterexample :
    (tempoExists 7 0 (tempoSet 7 (0 : Nat) 0 ([] : TempoStore Nat))).1 = false := by
  decide

deriving instance DecidableEq for Except

/-- `GenericPost` from `src/lib/models/mod.rs` (all fields are text, modelled as bytes). -/
structure GenericPost where
  channel_id : List Nat
  message : List Nat
  user_id : List Nat
  root_id : List Nat
  parent_id : List Nat
  id : List Nat
  team_id : List Nat
deriving DecidableEq

/-- A trigger record: `triggered_by` pattern plus optional replacement text or emoji. -/
structure MTrigger where
  triggered_by : List Nat
  text_ : Option (List Nat)
  emoji : Option (List Nat)
deriving DecidableEq

/-- A call issued to the chat client by the trigger handler. -/
inductive TrigAction
  | reply (post : GenericPost) (text : List Nat)
  | reaction (post : GenericPost) (emoji : List Nat)
  | sendTriggerList (l : List MTrigger) (post : GenericPost)
deriving DecidableEq

/-- Error outcome of the trigger handler: a persistence error propagated by
`?`, a client error propagated by `?`, or a panic (`Option::unwrap` on `None`). -/
inductive TrigErr
  | db (e : List Nat)
  | client (e : List Nat)
  | panic
deriving DecidableEq

/-- Oracle for the excluded persistence layer (`db::Trigger` trait). -/
structure TriggerDb where
  search : List Nat → Except (List Nat) (List MTrigger)
  list : List Nat → Except (List Nat) (List MTrigger)
  add_text : List Nat → List Nat → List Nat → Except (List Nat) Unit
  add_emoji : List Nat → List Nat → List Nat → Except (List Nat) Unit
  del : List Nat → List Nat → Except (List Nat) Unit

/-- Oracle for the chat client (`client::Sender`): result of each issued call. -/
def TrigClient : Type := TrigAction → Except (List Nat) Unit

/-- Per-channel anti-spam key `{team_id}{channel_id}--global-channel-rate-limit`. -/
def globalRateKey (post : GenericPost) : List Nat :=
  post.team_id ++ post.channel_id ++ utf8 "--global-channel-rate-limit"

/-- Per-channel-per-trigger key
`{team_id}{channel_id}{triggered_by}--trigger-channel-rate-limit`. -/
def triggerRateKey (post : GenericPost) (triggered_by : List Nat) : List Nat :=
  post.team_id ++ post.channel_id ++ triggered_by ++ utf8 "--trigger-channel-rate-limit"

/-- Wrap one client call, recording the action and propagating its failure (`?`). -/
def sendClient (client : TrigClient) (st : TempoStore (List Nat)) (a : TrigAction) :
    List TrigAction × TempoStore (List Nat) × Except TrigErr Unit :=
  match client a with
  | Except.ok _ => ([a], st, Except.ok ())
  | Except.error e => ([a], st, Except.error (TrigErr.client e))

/-- The per-trigger loop of `Trigger::handle`: for each matching trigger
check and set the per-channel-per-trigger key, then reply (and break) for a
text trigger or react (and continue) for an emoji trigger; `unwrap` on a
record with neither text nor emoji panics. -/
def trigLoop (client : TrigClient) (delay_repeat now : Nat) (post : GenericPost)
    (st : TempoStore (List Nat)) :
    List MTrigger → List TrigAction × TempoStore (List Nat) × Except TrigErr Unit
  | [] => ([], st, Except.ok ())
  | t :: rest =>
    match tempoExists now (triggerRateKey post t.triggered_by) st with
    | (true, st1) => trigLoop client delay_repeat now post st1 rest
    | (false, st1) =>
      match t.text_ with
      | some txt =>
        sendClient client (tempoSet now (triggerRateKey post t.triggered_by) delay_repeat st1)
          (TrigAction.reply post txt)
      | none =>
        match t.emoji with
        | some em =>
          match client (TrigAction.reaction post em) with
          | Except.ok _ =>
            (TrigAction.reaction post em ::
              (trigLoop client delay_repeat now post
                (tempoSet now (triggerRateKey post t.triggered_by) delay_repeat st1) rest).1,
             (trigLoop client delay_repeat now post
                (tempoSet now (triggerRateKey post t.triggered_by) delay_repeat st1) rest).2)
          | Except.error e =>
            ([TrigAction.reaction post em],
             tempoSet now (triggerRateKey post t.triggered_by) delay_repeat st1,
             Except.error (TrigErr.client e))
        | none =>
          ([], tempoSet now (triggerRateKey post t.triggered_by) delay_repeat st1,
           Except.error TrigErr.panic)

/-- No newline byte: transcribes that `.` in a Rust regex (without the `s`
flag) matches every character except `\n`. -/
def noNl (l : List Nat) : Bool := l.all (fun b => b != 10)

/-- Strip a literal at the start of the message (`^literal` in an anchored regex). -/
def stripPre (p m : List Nat) : Option (List Nat) :=
  if isPre p m then some (m.drop p.length) else none

/-- Split at the first occurrence of byte `b`: the part before it (which
cannot contain `b`) and the part after it. -/
def splitAtByte (b : Nat) : List Nat → Option (List Nat × List Nat)
  | [] => none
  | c :: t =>
    if c = b then some ([], t)
    else
      match splitAtByte b t with
      | none => none
      | some (p, r) => some (c :: p, r)

/-- Index of the first occurrence of byte `b`. -/
def idxOfByte (b : Nat) : List Nat → Option Nat
  | [] => none
  | c :: t => if c = b then some 0 else (idxOfByte b t).map (· + 1)

/-- Index of the last occurrence of byte `b`. -/
def lastIdxOfByte (b : Nat) : List Nat → Option Nat
  | [] => none
  | c :: t =>
    match lastIdxOfByte b t with
    | some i => some (i + 1)
    | none => if c = b then some 0 else none

/-- `is_match` of `^!trigger list.*$` (no multi-line, no dot-all flag): the
message starts with the literal and the remainder contains no newline. -/
def match_list (message : List Nat) : Bool :=
  isPre (utf8 "!trigger list") message && noNl (message.drop (utf8 "!trigger list").length)

/-- Captures of `^!trigger text "([^"]+)" "([^"]+)".*$`.  Both captures are
runs of non-quote bytes, so backtracking is forced: each capture extends
exactly to the next quote, and the trailing `.*$` requires the rest of the
message to be newline-free. -/
def match_text_captures (message : List Nat) : Option (List Nat × List Nat) :=
  match stripPre (utf8 "!trigger text \"") message with
  | none => none
  | some r0 =>
    match splitAtByte 34 r0 with
    | none => none
    | some (cap1, r1) =>
      if cap1 = [] then none
      else
        match r1 with
        | 32 :: 34 :: r2 =>
          match splitAtByte 34 r2 with
          | none => none
          | some (cap2, r3) =>
            if cap2 = [] then none
            else if noNl r3 then some (cap1, cap2) else none
        | _ => none

/-- Captures of `^!trigger reaction "([^"]+)" [:"]([^:]+)[:"].*$`.  The
first capture ends at the next quote.  For the second capture, a greedy
`([^:]+)` followed by `[:"]` either stops right before the first colon, or
— when the remainder has no colon — backtracks to the last quote; in both
cases the trailing `.*$` forces the rest to be newline-free, and any
shorter backtracking candidate has a superset tail, so the first candidate
is the only one that can succeed. -/
def match_reaction_captures (message : List Nat) : Option (List Nat × List Nat) :=
  match stripPre (utf8 "!trigger reaction \"") message with
  | none => none
  | some r0 =>
    match splitAtByte 34 r0 with
    | none => none
    | some (cap1, r1) =>
      if cap1 = [] then none
      else
        match r1 with
        | 32 :: c :: s =>
          if c = 58 ∨ c = 34 then
            match idxOfByte 58 s with
            | some m =>
              if 1 ≤ m ∧ noNl (s.drop (m + 1)) = true then some (cap1, s.take m) else none
            | none =>
              match lastIdxOfByte 34 s with
              | some k =>
                if 1 ≤ k ∧ noNl (s.drop (k + 1)) = true then some (cap1, s.take k) else none
              | none => none
          else none
        | _ => none

/-- Capture of `^!trigger del "(.+)".*` (note: no `$`).  The greedy `(.+)`
cannot cross a newline, so it extends to the last quote on the first line;
the trailing `.*` always succeeds. -/
def match_del_captures (message : List Nat) : Option (List Nat) :=
  match stripPre (utf8 "!trigger del \"") message with
  | none => none
  | some s =>
    let line := s.takeWhile (fun b => b != 10)
    match lastIdxOfByte 34 line with
    | some k => if 1 ≤ k then some (s.take k) else none
    | none => none

/-- `Trigger::handle` from `src/lib/handlers/trigger.rs`.  `compileErr`
models `compile_trigger`: `some e` is a compilation failure whose display
text is `e`, `none` means the pattern compiles.  The returned triple is the
trace of client calls, the final tempo store, and the handler result.  The
`let _ = db.add_text(..)` / `let _ = db.add_emoji(..)` discards of the
source appear as wildcard matches whose result does not influence the
outcome, while `db.del(..)?` propagates its error. -/
def handle (compileErr : List Nat → Option (List Nat)) (db : TriggerDb) (client : TrigClient)
    (delay_repeat now : Nat) (post : GenericPost) (st : TempoStore (List Nat)) :
    List TrigAction × TempoStore (List Nat) × Except TrigErr Unit :=
  if isPre (utf8 "!trigger ") post.message = false then
    match tempoExists now (globalRateKey post) st with
    | (true, st1) => ([], st1, Except.ok ())
    | (false, st1) =>
      match db.search post.team_id with
      | Except.error e =>
        ([], tempoSet now (globalRateKey post) 3 st1, Except.error (TrigErr.db e))
      | Except.ok team_triggers =>
        trigLoop client delay_repeat now post (tempoSet now (globalRateKey post) 3 st1)
          (team_triggers.filter (fun tt => valid_match tt.triggered_by post.message))
  else if match_list post.message then
    match db.list post.team_id with
    | Except.error e => ([], st, Except.error (TrigErr.db e))
    | Except.ok res => sendClient client st (TrigAction.sendTriggerList res post)
  else
    match match_text_captures post.message with
    | some (trigger, replacement) =>
      match compileErr trigger with
      | some etxt => sendClient client st (TrigAction.reply post etxt)
      | none =>
        match db.add_text post.team_id trigger replacement with
        | _ => sendClient client st (TrigAction.reaction post (utf8 "ok_hand"))
    | none =>
      match match_reaction_captures post.message with
      | some (trigger, emoji) =>
        match compileErr trigger with
        | some etxt => sendClient client st (TrigAction.reply post etxt)
        | none =>
          match db.add_emoji post.team_id trigger emoji with
          | _ => sendClient client st (TrigAction.reaction post (utf8 "ok_hand"))
      | none =>
        match match_del_captures post.message with
        | some trigger =>
          match db.del post.team_id trigger with
          | Except.error e => ([], st, Except.error (TrigErr.db e))
          | Except.ok _ => sendClient client st (TrigAction.reaction post (utf8 "ok_hand"))
        | none => ([], st, Except.ok ())

theorem tempoExists_snd_lookup_ne {K : Type} [DecidableEq K] {k key : K} (hne : k ≠ key)
    (now : Nat) (st : TempoStore K) :
    mapLookup k (tempoExists now key st).2 = mapLookup k st := by
  unfold tempoExists
  cases hl : mapLookup key st with
  | none => rfl
  | some e =>
    by_cases hle : e ≤ now
    · simp [hle, mapLookup_remove_ne (Ne.symm hne)]
    · simp [hle]

theorem globalKey_ne_trigKey (post : GenericPost) (tb : List Nat) :
    globalRateKey post ≠ triggerRateKey post tb := by
  intro h
  have hl := congrArg List.length h
  unfold globalRateKey triggerRateKey at hl
  have h1 : (utf8 "--global-channel-rate-limit").length = 27 := by decide
  have h2 : (utf8 "--trigger-channel-rate-limit").length = 28 := by decide
  simp only [List.length_append, h1, h2] at hl
  omega

theorem triggerRateKey_inj (post : GenericPost) {a b : List Nat}
    (h : triggerRateKey post a = triggerRateKey post b) : a = b := by
  unfold triggerRateKey at h
  exact List.append_cancel_left (List.append_cancel_right h)

theorem sendClient_store (client : TrigClient) (st : TempoStore (List Nat)) (a : TrigAction) :
    (sendClient client st a).2.1 = st := by
  unfold sendClient
  cases client a <;> rfl

theorem trigLoop_lookup_other (client : TrigClient) (delay τ : Nat) (post : GenericPost)
    (k : List Nat) :
    ∀ (ts : List MTrigger) (st : TempoStore (List Nat)),
    (∀ t ∈ ts, k ≠ triggerRateKey post t.triggered_by) →
    mapLookup k (trigLoop client delay τ post st ts).2.1 = mapLookup k st := by
  intro ts
  induction ts with
  | nil => intro st h; rfl
  | cons t rest ih =>
    intro st h
    have hk : k ≠ triggerRateKey post t.triggered_by := h t (by simp)
    have hrest : ∀ t' ∈ rest, k ≠ triggerRateKey post t'.triggered_by :=
      fun t' ht' => h t' (by simp [ht'])
    unfold trigLoop
    split
    · rename_i st1 heq
      rw [ih st1 hrest]
      have hsnd := tempoExists_snd_lookup_ne hk τ st
      rw [heq] at hsnd
      exact hsnd
    · rename_i st1 heq
      have hsnd : mapLookup k st1 = mapLookup k st := by
        have h0 := tempoExists_snd_lookup_ne hk τ st
        rw [heq] at h0
        exact h0
      have hchain :
          mapLookup k (tempoSet τ (triggerRateKey post t.triggered_by) delay st1) =
            mapLookup k st :=
        (mapLookup_insert_ne (Ne.symm hk) (τ + delay) st1).trans hsnd
      split
      · rename_i txt htxt
        rw [sendClient_store]
        exact hchain
      · split
        · rename_i em hem
          split
          · rename_i u hcl
            dsimp only
            rw [ih _ hrest]
            exact hchain
          · rename_i e hcl
            exact hchain
        · exact hchain

theorem handle_noncommand_store (cerr : List Nat → Option (List Nat)) (db : TriggerDb)
    (client : TrigClient) (delay τ : Nat) (post : GenericPost) (st : TempoStore (List Nat))
    (hnc : isPre (utf8 "!trigger ") post.message = false)
    (hgate : (tempoExists τ (globalRateKey post) st).1 = false) :
    mapLookup (globalRateKey post) (handle cerr db client delay τ post st).2.1 =
      some (τ + 3) := by
  unfold handle
  rw [hnc, if_pos rfl]
  split
  · rename_i st1 heq
    rw [heq] at hgate
    simp at hgate
  · rename_i st1 heq
    split
    · rename_i e heq2
      exact mapLookup_insert (globalRateKey post) (τ + 3) st1
    · rename_i ts heq2
      rw [trigLoop_lookup_other client delay τ post (globalRateKey post) _ _
        (fun t _ => globalKey_ne_trigKey post t.triggered_by)]
      exact mapLookup_insert (globalRateKey post) (τ + 3) st1

theorem handle_global_skip (cerr : List Nat → Option (List Nat)) (db : TriggerDb)
    (client : TrigClient) (delay τ : Nat) (post : GenericPost) (st : TempoStore (List Nat))
    (hnc : isPre (utf8 "!trigger ") post.message = false)
    (e : Nat) (hl : mapLookup (globalRateKey post) st = some e) (hτ : τ < e) :
    handle cerr db client delay τ post st = ([], st, Except.ok ()) := by
  unfold handle
  rw [hnc, if_pos rfl]
  have hte : tempoExists τ (globalRateKey post) st = (true, st) := by
    unfold tempoExists
    rw [hl]
    have : ¬ (e ≤ τ) := by omega
    simp [this]
  rw [hte]

/-- C3: two non-command messages in the same team and channel within 3
seconds: the second call returns immediately with no client action, an
unchanged store, and success, for every persistence and client oracle
(hence without consulting the persistence layer); a trigger whose
per-channel key is still unexpired is skipped while the remaining triggers
are processed as if it were not there; and firing a trigger at time `τ`
stores expiry `τ + ttl` for its key, which is exactly the configured
repeat-delay window. -/
theorem c3_rate_limiting :
    (∀ (cerr1 cerr2 : List Nat → Option (List Nat)) (db1 db2 : TriggerDb)
       (client1 client2 : TrigClient) (delay1 delay2 τ1 τ2 : Nat)
       (post1 post2 : GenericPost) (st0 : TempoStore (List Nat)),
       isPre (utf8 "!trigger ") post1.message = false →
       isPre (utf8 "!trigger ") post2.message = false →
       post2.team_id = post1.team_id → post2.channel_id = post1.channel_id →
       (tempoExists τ1 (globalRateKey post1) st0).1 = false →
       τ2 < τ1 + 3 →
       handle cerr2 db2 client2 delay2 τ2 post2
           (handle cerr1 db1 client1 delay1 τ1 post1 st0).2.1 =
         ([], (handle cerr1 db1 client1 delay1 τ1 post1 st0).2.1, Except.ok ())) ∧
    (∀ (client : TrigClient) (delay τ : Nat) (post : GenericPost) (t : MTrigger)
       (rest : List MTrigger) (st : TempoStore (List Nat)) (e : Nat),
       mapLookup (triggerRateKey post t.triggered_by) st = some e → τ < e →
       trigLoop client delay τ post st (t :: rest) = trigLoop client delay τ post st rest) ∧
    (∀ (τ ttl : Nat) (k : List Nat) (st : TempoStore (List Nat)),
       mapLookup k (tempoSet τ k ttl st) = some (τ + ttl)) := by
  refine ⟨?_, ?_, ?_⟩
  · intro cerr1 cerr2 db1 db2 client1 client2 delay1 delay2 τ1 τ2 post1 post2 st0
      hnc1 hnc2 hteam hchan hgate hwin
    have hgk : globalRateKey post2 = globalRateKey post1 := by
      unfold globalRateKey
      rw [hteam, hchan]
    have hstore := handle_noncommand_store cerr1 db1 client1 delay1 τ1 post1 st0 hnc1 hgate
    exact handle_global_skip cerr2 db2 client2 delay2 τ2 post2 _ hnc2 (τ1 + 3)
      (by rw [hgk]; exact hstore) hwin
  · intro client delay τ post t rest st e hl hτ
    have hte : tempoExists τ (triggerRateKey post t.triggered_by) st = (true, st) := by
      unfold tempoExists
      rw [hl]
      have : ¬ (e ≤ τ) := by omega
      simp [this]
    conv =>
      lhs
      rw [trigLoop, hte]
  · intro τ ttl k st
    exact mapLookup_insert k (τ + ttl) st

/-- Client oracle that accepts every call, used by concrete witnesses. -/
def clientAllOk : TrigClient := fun _ => Except.ok ()

/-- Persistence oracle with no triggers, used by concrete witnesses. -/
def dbNone : TriggerDb :=
  ⟨fun _ => Except.ok [], fun _ => Except.ok [], fun _ _ _ => Except.ok (),
   fun _ _ _ => Except.ok (), fun _ _ => Except.ok ()⟩

/-- A plain chat post in team `t1`, channel `c1`, used by concrete witnesses. -/
def postHello : GenericPost :=
  ⟨utf8 "c1", utf8 "hello there", utf8 "u1", [], [], [], utf8 "t1"⟩

/-- Witness for C3 at concrete inputs. -/
theorem c3_rate_limiting_witness :
    (handle (fun _ => none) dbNone clientAllOk 120 2 postHello
        (handle (fun _ => none) dbNone clientAllOk 120 0 postHello []).2.1 =
      ([], (handle (fun _ => none) dbNone clientAllOk 120 0 postHello []).2.1, Except.ok ())) ∧
    (trigLoop clientAllOk 120 1 postHello [(triggerRateKey postHello (utf8 "a"), 121)]
        [⟨utf8 "a", none, some (utf8 "go")⟩] =
      trigLoop clientAllOk 120 1 postHello [(triggerRateKey postHello (utf8 "a"), 121)] []) ∧
    (mapLookup (triggerRateKey postHello (utf8 "a"))
        (tempoSet 1 (triggerRateKey postHello (utf8 "a")) 120 []) = some 121) := by
  refine ⟨?_, ?_, ?_⟩
  · exact c3_rate_limiting.1 (fun _ => none) (fun _ => none) dbNone dbNone clientAllOk
      clientAllOk 120 120 0 2 postHello postHello [] (by decide) (by decide) rfl rfl
      (by decide) (by decide)
  · exact c3_rate_limiting.2.1 clientAllOk 120 1 postHello ⟨utf8 "a", none, some (utf8 "go")⟩
      [] [(triggerRateKey postHello (utf8 "a"), 121)] 121 (by decide) (by decide)
  · exact c3_rate_limiting.2.2 1 120 (triggerRateKey postHello (utf8 "a")) []

theorem trigLoop_emojis_append (client : TrigClient) (hcl : ∀ a, client a = Except.ok ())
    (delay τ : Nat) (post : GenericPost) :
    ∀ (es : List MTrigger) (st : TempoStore (List Nat)) (suf : List MTrigger),
    (∀ t ∈ es, t.text_ = none ∧ t.emoji ≠ none) →
    (∀ t ∈ es, mapLookup (triggerRateKey post t.triggered_by) st = none) →
    ((es.map fun t => triggerRateKey post t.triggered_by).Nodup) →
    ∃ st',
      trigLoop client delay τ post st (es ++ suf) =
        ((es.map fun t => TrigAction.reaction post (t.emoji.getD [])) ++
            (trigLoop client delay τ post st' suf).1,
          (trigLoop client delay τ post st' suf).2) ∧
      (∀ k, (∀ t ∈ es, k ≠ triggerRateKey post t.triggered_by) →
        mapLookup k st' = mapLookup k st) := by
  intro es
  induction es with
  | nil =>
    intro st suf _ _ _
    refine ⟨st, ?_, fun k _ => rfl⟩
    simp
  | cons e es ih =>
    intro st suf hall habs hnd
    obtain ⟨htxt, hemne⟩ := hall e (by simp)
    obtain ⟨em, hem⟩ := Option.ne_none_iff_exists'.mp hemne
    have habse : mapLookup (triggerRateKey post e.triggered_by) st = none := habs e (by simp)
    have hte : tempoExists τ (triggerRateKey post e.triggered_by) st = (false, st) := by
      unfold tempoExists
      rw [habse]
    simp only [List.map_cons, List.nodup_cons] at hnd
    have hkey_ne : ∀ t ∈ es,
        triggerRateKey post t.triggered_by ≠ triggerRateKey post e.triggered_by := by
      intro t ht heq
      exact hnd.1 (heq ▸ List.mem_map_of_mem _ ht)
    have htail_abs : ∀ t ∈ es,
        mapLookup (triggerRateKey post t.triggered_by)
          (tempoSet τ (triggerRateKey post e.triggered_by) delay st) = none := by
      intro t ht
      unfold tempoSet
      rw [mapLookup_insert_ne (Ne.symm (hkey_ne t ht))]
      exact habs t (by simp [ht])
    obtain ⟨st', hrun, hpres⟩ :=
      ih (tempoSet τ (triggerRateKey post e.triggered_by) delay st) suf
        (fun t ht => hall t (by simp [ht])) htail_abs hnd.2
    have step : trigLoop client delay τ post st (e :: (es ++ suf)) =
        (TrigAction.reaction post em ::
          (trigLoop client delay τ post
            (tempoSet τ (triggerRateKey post e.triggered_by) delay st) (es ++ suf)).1,
         (trigLoop client delay τ post
            (tempoSet τ (triggerRateKey post e.triggered_by) delay st) (es ++ suf)).2) := by
      simp only [trigLoop, hte, htxt, hem, hcl]
    refine ⟨st', ?_, ?_⟩
    · rw [List.cons_append, step, hrun]
      simp [hem]
    · intro k hk
      rw [hpres k (fun t ht => hk t (by simp [ht]))]
      unfold tempoSet
      exact mapLookup_insert_ne (Ne.symm (hk e (by simp))) _ st

theorem handle_noncommand_run (cerr : List Nat → Option (List Nat)) (db : TriggerDb)
    (client : TrigClient) (delay τ : Nat) (post : GenericPost) (st : TempoStore (List Nat))
    (ts : List MTrigger)
    (hnc : isPre (utf8 "!trigger ") post.message = false)
    (hgate : (tempoExists τ (globalRateKey post) st).1 = false)
    (hsearch : db.search post.team_id = Except.ok ts) :
    handle cerr db client delay τ post st =
      trigLoop client delay τ post
        (tempoSet τ (globalRateKey post) 3 (tempoExists τ (globalRateKey post) st).2)
        (ts.filter fun tt => valid_match tt.triggered_by post.message) := by
  unfold handle
  rw [hnc, if_pos rfl]
  split
  · rename_i st1 heq
    rw [heq] at hgate
    simp at hgate
  · rename_i st1 heq
    split
    · rename_i e heq2
      rw [hsearch] at heq2
      simp at heq2
    · rename_i ts2 heq2
      rw [hsearch] at heq2
      have hts : ts = ts2 := Except.ok.inj heq2
      subst hts
      rw [heq]

/-- C4 (amended): the handler walks the matching triggers in the order the
persistence layer returns them, sends a reaction for each non-rate-limited
emoji trigger it meets, and on the first trigger with replacement text
sends the reply and stops, suppressing only the triggers that come later
in that order; when the text trigger comes first only its reply is sent,
and a message matching two emoji triggers gets both reactions. -/
theorem c4_trigger_priority :
    (∀ (cerr : List Nat → Option (List Nat)) (db : TriggerDb) (client : TrigClient)
       (delay τ : Nat) (post : GenericPost) (st : TempoStore (List Nat))
       (ts es rest : List MTrigger) (ttx : MTrigger) (txt : List Nat),
       isPre (utf8 "!trigger ") post.message = false →
       (tempoExists τ (globalRateKey post) st).1 = false →
       db.search post.team_id = Except.ok ts →
       ts.filter (fun tt => valid_match tt.triggered_by post.message) = es ++ ttx :: rest →
       (∀ t ∈ es, t.text_ = none ∧ t.emoji ≠ none) →
       ttx.text_ = some txt →
       (∀ a, client a = Except.ok ()) →
       (∀ t ∈ es ++ [ttx], mapLookup (triggerRateKey post t.triggered_by) st = none) →
       ((es ++ [ttx]).map fun t => t.triggered_by).Nodup →
       (handle cerr db client delay τ post st).1 =
         (es.map fun t => TrigAction.reaction post (t.emoji.getD [])) ++
           [TrigAction.reply post txt]) ∧
    (∀ (cerr : List Nat → Option (List Nat)) (db : TriggerDb) (client : TrigClient)
       (delay τ : Nat) (post : GenericPost) (st : TempoStore (List Nat))
       (ts es : List MTrigger),
       isPre (utf8 "!trigger ") post.message = false →
       (tempoExists τ (globalRateKey post) st).1 = false →
       db.search post.team_id = Except.ok ts →
       ts.filter (fun tt => valid_match tt.triggered_by post.message) = es →
       (∀ t ∈ es, t.text_ = none ∧ t.emoji ≠ none) →
       (∀ a, client a = Except.ok ()) →
       (∀ t ∈ es, mapLookup (triggerRateKey post t.triggered_by) st = none) →
       (es.map fun t => t.triggered_by).Nodup →
       (handle cerr db client delay τ post st).1 =
         es.map fun t => TrigAction.reaction post (t.emoji.getD [])) := by
  constructor
  · intro cerr db client delay τ post st ts es rest ttx txt hnc hgate hsearch hfilter
      hall httx hcl habs hnd
    have hst2abs : ∀ t ∈ es ++ [ttx], mapLookup (triggerRateKey post t.triggered_by)
        (tempoSet τ (globalRateKey post) 3 (tempoExists τ (globalRateKey post) st).2) = none := by
      intro t ht
      unfold tempoSet
      rw [mapLookup_insert_ne (globalKey_ne_trigKey post t.triggered_by),
        tempoExists_snd_lookup_ne (Ne.symm (globalKey_ne_trigKey post t.triggered_by))]
      exact habs t ht
    have hinj : Function.Injective (fun tb => triggerRateKey post tb) :=
      fun a b h => triggerRateKey_inj post h
    have hkeynd : ((es ++ [ttx]).map fun t => triggerRateKey post t.triggered_by).Nodup := by
      have h0 := (hnd.map hinj)
      rw [List.map_map] at h0
      exact h0
    rw [List.map_append] at hkeynd
    have hndes : (es.map fun t => triggerRateKey post t.triggered_by).Nodup :=
      hkeynd.of_append_left
    have hdisj := List.disjoint_of_nodup_append hkeynd
    have httxnotin : triggerRateKey post ttx.triggered_by ∉
        es.map fun t => triggerRateKey post t.triggered_by := by
      intro hmem
      exact hdisj hmem (by simp)
    obtain ⟨st', hrun, hpres⟩ := trigLoop_emojis_append client hcl delay τ post es
      (tempoSet τ (globalRateKey post) 3 (tempoExists τ (globalRateKey post) st).2)
      (ttx :: rest) (fun t ht => hall t ht) (fun t ht => hst2abs t (by simp [ht])) hndes
    rw [handle_noncommand_run cerr db client delay τ post st ts hnc hgate hsearch, hfilter,
      hrun]
    have httxabs : mapLookup (triggerRateKey post ttx.triggered_by) st' = none := by
      rw [hpres _ (fun t ht heq => httxnotin (by rw [heq]; exact List.mem_map_of_mem _ ht))]
      exact hst2abs ttx (by simp)
    have hte' : tempoExists τ (triggerRateKey post ttx.triggered_by) st' = (false, st') := by
      unfold tempoExists
      rw [httxabs]
    have hstep : trigLoop client delay τ post st' (ttx :: rest) =
        ([TrigAction.reply post txt],
         tempoSet τ (triggerRateKey post ttx.triggered_by) delay st', Except.ok ()) := by
      simp only [trigLoop, hte', httx, sendClient, hcl]
    rw [hstep]
  · intro cerr db client delay τ post st ts es hnc hgate hsearch hfilter hall hcl habs hnd
    have hst2abs : ∀ t ∈ es, mapLookup (triggerRateKey post t.triggered_by)
        (tempoSet τ (globalRateKey post) 3 (tempoExists τ (globalRateKey post) st).2) = none := by
      intro t ht
      unfold tempoSet
      rw [mapLookup_insert_ne (globalKey_ne_trigKey post t.triggered_by),
        tempoExists_snd_lookup_ne (Ne.symm (globalKey_ne_trigKey post t.triggered_by))]
      exact habs t ht
    have hinj : Function.Injective (fun tb => triggerRateKey post tb) :=
      fun a b h => triggerRateKey_inj post h
    have hndes : (es.map fun t => triggerRateKey post t.triggered_by).Nodup := by
      have h0 := (hnd.map hinj)
      rw [List.map_map] at h0
      exact h0
    obtain ⟨st', hrun, _⟩ := trigLoop_emojis_append client hcl delay τ post es
      (tempoSet τ (globalRateKey post) 3 (tempoExists τ (globalRateKey post) st).2)
      [] hall hst2abs hndes
    rw [List.append_nil] at hrun
    rw [handle_noncommand_run cerr db client delay τ post st ts hnc hgate hsearch, hfilter,
      hrun]
    simp [trigLoop]

/-- A post whose message matches both stored triggers `a` and `b`. -/
def postAB : GenericPost := ⟨utf8 "c1", utf8 "a b", utf8 "u1", [], [], [], utf8 "t1"⟩

/-- Persistence oracle whose search returns an emoji trigger on `a` before a
text trigger on `b`, the order the source comments describe (text sorted
after emoji). -/
def dbEmojiFirst : TriggerDb :=
  ⟨fun _ => Except.ok
      [⟨utf8 "a", none, some (utf8 "smile")⟩, ⟨utf8 "b", some (utf8 "yo"), none⟩],
   fun _ => Except.ok [], fun _ _ _ => Except.ok (),
   fun _ _ _ => Except.ok (), fun _ _ => Except.ok ()⟩

/-- C4 counterexample: a message matching both an emoji trigger and a text
trigger, neither rate-limited, for which the handler's output is not only
the text trigger's reply — the emoji reaction is sent as well, because the
emoji trigger precedes the text trigger in the search order. -/
theorem c4_trigger_priority_counterexample :
    (handle (fun _ => none) dbEmojiFirst clientAllOk 120 0 postAB []).1 =
      [TrigAction.reaction postAB (utf8 "smile"), TrigAction.reply postAB (utf8 "yo")] ∧
    (handle (fun _ => none) dbEmojiFirst clientAllOk 120 0 postAB []).1 ≠
      [TrigAction.reply postAB (utf8 "yo")] := by
  exact ⟨by decide, by decide⟩

/-- Persistence oracle whose search returns the text trigger on `b` before
the emoji trigger on `a`. -/
def dbTextFirst : TriggerDb :=
  ⟨fun _ => Except.ok
      [⟨utf8 "b", some (utf8 "yo"), none⟩, ⟨utf8 "a", none, some (utf8 "smile")⟩],
   fun _ => Except.ok [], fun _ _ _ => Except.ok (),
   fun _ _ _ => Except.ok (), fun _ _ => Except.ok ()⟩

/-- Persistence oracle whose search returns two emoji triggers. -/
def dbTwoEmojis : TriggerDb :=
  ⟨fun _ => Except.ok
      [⟨utf8 "a", none, some (utf8 "smile")⟩, ⟨utf8 "b", none, some (utf8 "wave")⟩],
   fun _ => Except.ok [], fun _ _ _ => Except.ok (),
   fun _ _ _ => Except.ok (), fun _ _ => Except.ok ()⟩

/-- Witness for C4 at concrete inputs. -/
theorem c4_trigger_priority_witness :
    (handle (fun _ => none) dbTextFirst clientAllOk 120 0 postAB []).1 =
      [TrigAction.reply postAB (utf8 "yo")] ∧
    (handle (fun _ => none) dbTwoEmojis clientAllOk 120 0 postAB []).1 =
      [TrigAction.reaction postAB (utf8 "smile"), TrigAction.reaction postAB (utf8 "wave")] := by
  constructor
  · exact c4_trigger_priority.1 (fun _ => none) dbTextFirst clientAllOk 120 0 postAB []
      [⟨utf8 "b", some (utf8 "yo"), none⟩, ⟨utf8 "a", none, some (utf8 "smile")⟩]
      [] [⟨utf8 "a", none, some (utf8 "smile")⟩] ⟨utf8 "b", some (utf8 "yo"), none⟩
      (utf8 "yo") (by decide) (by decide) rfl (by decide) (by decide) rfl
      (fun a => rfl) (by decide) (by decide)
  · exact c4_trigger_priority.2 (fun _ => none) dbTwoEmojis clientAllOk 120 0 postAB []
      [⟨utf8 "a", none, some (utf8 "smile")⟩, ⟨utf8 "b", none, some (utf8 "wave")⟩]
      [⟨utf8 "a", none, some (utf8 "smile")⟩, ⟨utf8 "b", none, some (utf8 "wave")⟩]
      (by decide) (by decide) rfl (by decide) (by decide) (fun a => rfl) (by decide)
      (by decide)

theorem stripPre_eq {p m r : List Nat} (h : stripPre p m = some r) : m = p ++ r := by
  unfold stripPre at h
  split at h
  · rename_i hp
    simp only [Option.some.injEq] at h
    subst h
    obtain ⟨s, hs⟩ := (isPre_iff _ _).mp hp
    rw [← hs, List.drop_left]
  · exact absurd h (by simp)

theorem match_text_captures_shape {m : List Nat} {c : List Nat × List Nat}
    (h : match_text_captures m = some c) : ∃ r, m = utf8 "!trigger text \"" ++ r := by
  unfold match_text_captures at h
  cases hs : stripPre (utf8 "!trigger text \"") m with
  | none => rw [hs] at h; simp at h
  | some r0 => exact ⟨r0, stripPre_eq hs⟩

theorem match_reaction_captures_shape {m : List Nat} {c : List Nat × List Nat}
    (h : match_reaction_captures m = some c) : ∃ r, m = utf8 "!trigger reaction \"" ++ r := by
  unfold match_reaction_captures at h
  cases hs : stripPre (utf8 "!trigger reaction \"") m with
  | none => rw [hs] at h; simp at h
  | some r0 => exact ⟨r0, stripPre_eq hs⟩

theorem match_del_captures_shape {m : List Nat} {c : List Nat}
    (h : match_del_captures m = some c) : ∃ r, m = utf8 "!trigger del \"" ++ r := by
  unfold match_del_captures at h
  cases hs : stripPre (utf8 "!trigger del \"") m with
  | none => rw [hs] at h; simp at h
  | some r0 => exact ⟨r0, stripPre_eq hs⟩

theorem isPre_trigger_of_text (r : List Nat) :
    isPre (utf8 "!trigger ") (utf8 "!trigger text \"" ++ r) = true := by
  have e1 : utf8 "!trigger text \"" =
      [33, 116, 114, 105, 103, 103, 101, 114, 32, 116, 101, 120, 116, 32, 34] := by decide
  have e2 : utf8 "!trigger " = [33, 116, 114, 105, 103, 103, 101, 114, 32] := by decide
  rw [e1, e2]
  simp [isPre]

theorem isPre_trigger_of_reaction (r : List Nat) :
    isPre (utf8 "!trigger ") (utf8 "!trigger reaction \"" ++ r) = true := by
  have e1 : utf8 "!trigger reaction \"" =
      [33, 116, 114, 105, 103, 103, 101, 114, 32, 114, 101, 97, 99, 116, 105, 111, 110, 32, 34] := by
    decide
  have e2 : utf8 "!trigger " = [33, 116, 114, 105, 103, 103, 101, 114, 32] := by decide
  rw [e1, e2]
  simp [isPre]

theorem isPre_trigger_of_del (r : List Nat) :
    isPre (utf8 "!trigger ") (utf8 "!trigger del \"" ++ r) = true := by
  have e1 : utf8 "!trigger del \"" =
      [33, 116, 114, 105, 103, 103, 101, 114, 32, 100, 101, 108, 32, 34] := by decide
  have e2 : utf8 "!trigger " = [33, 116, 114, 105, 103, 103, 101, 114, 32] := by decide
  rw [e1, e2]
  simp [isPre]

theorem match_list_of_text (r : List Nat) :
    match_list (utf8 "!trigger text \"" ++ r) = false := by
  have e1 : utf8 "!trigger text \"" =
      [33, 116, 114, 105, 103, 103, 101, 114, 32, 116, 101, 120, 116, 32, 34] := by decide
  have e2 : utf8 "!trigger list" =
      [33, 116, 114, 105, 103, 103, 101, 114, 32, 108, 105, 115, 116] := by decide
  unfold match_list
  rw [e1, e2]
  simp [isPre]

theorem match_list_of_reaction (r : List Nat) :
    match_list (utf8 "!trigger reaction \"" ++ r) = false := by
  have e1 : utf8 "!trigger reaction \"" =
      [33, 116, 114, 105, 103, 103, 101, 114, 32, 114, 101, 97, 99, 116, 105, 111, 110, 32, 34] := by
    decide
  have e2 : utf8 "!trigger list" =
      [33, 116, 114, 105, 103, 103, 101, 114, 32, 108, 105, 115, 116] := by decide
  unfold match_list
  rw [e1, e2]
  simp [isPre]

theorem match_list_of_del (r : List Nat) :
    match_list (utf8 "!trigger del \"" ++ r) = false := by
  have e1 : utf8 "!trigger del \"" =
      [33, 116, 114, 105, 103, 103, 101, 114, 32, 100, 101, 108, 32, 34] := by decide
  have e2 : utf8 "!trigger list" =
      [33, 116, 114, 105, 103, 103, 101, 114, 32, 108, 105, 115, 116] := by decide
  unfold match_list
  rw [e1, e2]
  simp [isPre]

theorem match_text_captures_of_reaction (r : List Nat) :
    match_text_captures (utf8 "!trigger reaction \"" ++ r) = none := by
  have hpre : isPre (utf8 "!trigger text \"") (utf8 "!trigger reaction \"" ++ r) = false := by
    have e1 : utf8 "!trigger reaction \"" =
        [33, 116, 114, 105, 103, 103, 101, 114, 32, 114, 101, 97, 99, 116, 105, 111, 110, 32, 34] := by
      decide
    have e2 : utf8 "!trigger text \"" =
        [33, 116, 114, 105, 103, 103, 101, 114, 32, 116, 101, 120, 116, 32, 34] := by decide
    rw [e1, e2]
    simp [isPre]
  unfold match_text_captures stripPre
  rw [hpre]
  simp

theorem match_text_captures_of_del (r : List Nat) :
    match_text_captures (utf8 "!trigger del \"" ++ r) = none := by
  have hpre : isPre (utf8 "!trigger text \"") (utf8 "!trigger del \"" ++ r) = false := by
    have e1 : utf8 "!trigger del \"" =
        [33, 116, 114, 105, 103, 103, 101, 114, 32, 100, 101, 108, 32, 34] := by decide
    have e2 : utf8 "!trigger text \"" =
        [33, 116, 114, 105, 103, 103, 101, 114, 32, 116, 101, 120, 116, 32, 34] := by decide
    rw [e1, e2]
    simp [isPre]
  unfold match_text_captures stripPre
  rw [hpre]
  simp

theorem match_reaction_captures_of_del (r : List Nat) :
    match_reaction_captures (utf8 "!trigger del \"" ++ r) = none := by
  have hpre : isPre (utf8 "!trigger reaction \"") (utf8 "!trigger del \"" ++ r) = false := by
    have e1 : utf8 "!trigger del \"" =
        [33, 116, 114, 105, 103, 103, 101, 114, 32, 100, 101, 108, 32, 34] := by decide
    have e2 : utf8 "!trigger reaction \"" =
        [33, 116, 114, 105, 103, 103, 101, 114, 32, 114, 101, 97, 99, 116, 105, 111, 110, 32, 34] := by
      decide
    rw [e1, e2]
    simp [isPre]
  unfold match_reaction_captures stripPre
  rw [hpre]
  simp

/-- C7 (amended): for `!trigger text` and `!trigger reaction` commands with
a compiling pattern, the result of the persistence write (`add_text` /
`add_emoji`) is discarded — the result of `handle` does not depend on the
persistence oracle at all — and the `ok_hand` acknowledgment is sent with
the handler succeeding; for `!trigger del`, however, a persistence failure
propagates as the handler's error and no acknowledgment is sent. -/
theorem c7_management_ack :
    (∀ (cerr : List Nat → Option (List Nat)) (db : TriggerDb) (client : TrigClient)
       (delay τ : Nat) (post : GenericPost) (st : TempoStore (List Nat))
       (trig repl : List Nat),
       match_text_captures post.message = some (trig, repl) →
       cerr trig = none →
       client (TrigAction.reaction post (utf8 "ok_hand")) = Except.ok () →
       handle cerr db client delay τ post st =
         ([TrigAction.reaction post (utf8 "ok_hand")], st, Except.ok ())) ∧
    (∀ (cerr : List Nat → Option (List Nat)) (db : TriggerDb) (client : TrigClient)
       (delay τ : Nat) (post : GenericPost) (st : TempoStore (List Nat))
       (trig emo : List Nat),
       match_reaction_captures post.message = some (trig, emo) →
       cerr trig = none →
       client (TrigAction.reaction post (utf8 "ok_hand")) = Except.ok () →
       handle cerr db client delay τ post st =
         ([TrigAction.reaction post (utf8 "ok_hand")], st, Except.ok ())) ∧
    (∀ (cerr : List Nat → Option (List Nat)) (db : TriggerDb) (client : TrigClient)
       (delay τ : Nat) (post : GenericPost) (st : TempoStore (List Nat))
       (trig e : List Nat),
       match_del_captures post.message = some trig →
       db.del post.team_id trig = Except.error e →
       handle cerr db client delay τ post st = ([], st, Except.error (TrigErr.db e))) := by
  refine ⟨?_, ?_, ?_⟩
  · intro cerr db client delay τ post st trig repl hcap hc hclok
    obtain ⟨r, hr⟩ := match_text_captures_shape hcap
    rw [hr] at hcap
    unfold handle
    rw [hr, isPre_trigger_of_text r]
    rw [if_neg (by simp)]
    rw [match_list_of_text r]
    rw [if_neg (by simp)]
    rw [hcap]
    simp only [hc]
    unfold sendClient
    rw [hclok]
  · intro cerr db client delay τ post st trig emo hcap hc hclok
    obtain ⟨r, hr⟩ := match_reaction_captures_shape hcap
    rw [hr] at hcap
    unfold handle
    rw [hr, isPre_trigger_of_reaction r]
    rw [if_neg (by simp)]
    rw [match_list_of_reaction r]
    rw [if_neg (by simp)]
    rw [match_text_captures_of_reaction r, hcap]
    simp only [hc]
    unfold sendClient
    rw [hclok]
  · intro cerr db client delay τ post st trig e hcap hdel
    obtain ⟨r, hr⟩ := match_del_captures_shape hcap
    rw [hr] at hcap
    unfold handle
    rw [hr, isPre_trigger_of_del r]
    rw [if_neg (by simp)]
    rw [match_list_of_del r]
    rw [if_neg (by simp)]
    rw [match_text_captures_of_del r, match_reaction_captures_of_del r, hcap]
    simp only [hdel]

/-- Persistence oracle all of whose write operations fail. -/
def dbAllFail : TriggerDb :=
  ⟨fun _ => Except.error (utf8 "dberr"), fun _ => Except.error (utf8 "dberr"),
   fun _ _ _ => Except.error (utf8 "dberr"), fun _ _ _ => Except.error (utf8 "dberr"),
   fun _ _ => Except.error (utf8 "dberr")⟩

/-- A `!trigger text` command post. -/
def postTextCmd : GenericPost :=
  ⟨utf8 "c1", utf8 "!trigger text \"tr\" \"rep\"", utf8 "u1", [], [], [], utf8 "t1"⟩

/-- A `!trigger reaction` command post. -/
def postReactCmd : GenericPost :=
  ⟨utf8 "c1", utf8 "!trigger reaction \"tr\" :emo:", utf8 "u1", [], [], [], utf8 "t1"⟩

/-- A `!trigger del` command post. -/
def postDelCmd : GenericPost :=
  ⟨utf8 "c1", utf8 "!trigger del \"tr\"", utf8 "u1", [], [], [], utf8 "t1"⟩

/-- Witness for C7 at concrete inputs: the persistence layer fails every
write, yet `text` and `reaction` commands are acknowledged with success,
and the `del` command propagates the failure. -/
theorem c7_management_ack_witness :
    (handle (fun _ => none) dbAllFail clientAllOk 120 0 postTextCmd [] =
      ([TrigAction.reaction postTextCmd (utf8 "ok_hand")], [], Except.ok ())) ∧
    (handle (fun _ => none) dbAllFail clientAllOk 120 0 postReactCmd [] =
      ([TrigAction.reaction postReactCmd (utf8 "ok_hand")], [], Except.ok ())) ∧
    (handle (fun _ => none) dbAllFail clientAllOk 120 0 postDelCmd [] =
      ([], [], Except.error (TrigErr.db (utf8 "dberr")))) := by
  refine ⟨?_, ?_, ?_⟩
  · exact c7_management_ack.1 (fun _ => none) dbAllFail clientAllOk 120 0 postTextCmd []
      (utf8 "tr") (utf8 "rep") (by decide) rfl rfl
  · exact c7_management_ack.2.1 (fun _ => none) dbAllFail clientAllOk 120 0 postReactCmd []
      (utf8 "tr") (utf8 "emo") (by decide) rfl rfl
  · exact c7_management_ack.2.2 (fun _ => none) dbAllFail clientAllOk 120 0 postDelCmd []
      (utf8 "tr") (utf8 "dberr") (by decide) rfl

/-- C7 counterexample: for a `!trigger del` command whose pattern compiles
(`compile_trigger` of an escaped pattern), a failing persistence delete is
not discarded — the handler returns the error and never sends the `ok`
acknowledgment, contradicting the claim that the acknowledgment is sent
unconditionally with the handler succeeding. -/
theorem c7_management_ack_counterexample :
    handle (fun _ => none) dbAllFail clientAllOk 120 0 postDelCmd [] =
      ([], [], Except.error (TrigErr.db (utf8 "dberr"))) ∧
    TrigAction.reaction postDelCmd (utf8 "ok_hand") ∉
      (handle (fun _ => none) dbAllFail clientAllOk 120 0 postDelCmd []).1 ∧
    (handle (fun _ => none) dbAllFail clientAllOk 120 0 postDelCmd []).2.2 ≠
      Except.ok () := by
  refine ⟨by decide, by decide, by decide⟩

/-- `Hello` payload from the models module. -/
structure GenericHello where
  server_string : List Nat
  my_user_id : List Nat
deriving DecidableEq

/-- `PostEdited` payload from the models module. -/
structure GenericPostEdited where
  channel_id : List Nat
  message : List Nat
  user_id : List Nat
  root_id : List Nat
  parent_id : List Nat
  id : List Nat
deriving DecidableEq

/-- `StatusCode` from the models module. -/
inductive StatusCode
  | ok
  | error
  | unknown
  | unsupported
deriving DecidableEq

/-- `StatusError` from the models module. -/
structure StatusError where
  message : List Nat
  detailed_error : List Nat
  request_id : Option (List Nat)
  status_code : Int
deriving DecidableEq

/-- `StatusError::new_none()`. -/
def StatusError.new_none : StatusError := ⟨utf8 "none", [], none, 0⟩

/-- `Status` payload: code plus optional error details. -/
structure GenericStatus where
  code : StatusCode
  error : Option StatusError
deriving DecidableEq

/-- `Event` as consumed by `Instance` in `src/lib/instance.rs`. -/
inductive Event
  | hello (h : GenericHello)
  | post (p : GenericPost)
  | postEdited (pe : GenericPostEdited)
  | status (s : GenericStatus)
  | unsupported (raw : List Nat)
  | shutdown
deriving DecidableEq

/-- `middleware::Continue`: pass on a possibly transformed event, or veto. -/
inductive Continue
  | yes (ev : Event)
  | no
deriving DecidableEq

/-- Oracle for one middleware's `process`. -/
def MwM : Type := Event → Except (List Nat) Continue

/-- `instance::Error`, with text payloads. -/
inductive IError
  | other (s : List Nat)
  | middleware (e : List Nat)
  | processing (s : List Nat)
  | client (e : List Nat)
  | consumer (s : List Nat)
  | status (s : List Nat)
deriving DecidableEq

/-- Oracle for the chat client used by the instance (`reply` and `debug`). -/
structure NotifClient where
  reply : GenericPost → List Nat → Except (List Nat) Unit
  debug : List Nat → Except (List Nat) Unit

/-- A registered post handler: name, optional help text, handle oracle.
Handler errors are modelled by their `{:?}` rendering. -/
structure PostHandlerM where
  name : List Nat
  help : Option (List Nat)
  handle : GenericPost → Except (List Nat) Unit

/-- One observable step of the instance: a middleware invocation, a reply
issued by the help command, a handler invocation, a `debug` call, or the
`println` fallback when the debug call itself fails. -/
inductive Item
  | mw (idx : Nat) (ev : Event)
  | helpReply (text : List Nat)
  | invoked (idx : Nat)
  | debugged (text : List Nat)
  | debugFailed (text : List Nat)
deriving DecidableEq

/-- `Instance::add_post_handler`'s effect on the help registry: the help
text is inserted under the handler's name only when `help()` is `Some`,
overwriting any previous entry for that name. -/
def addPostHandler (helps : List (List Nat × List Nat)) (h : PostHandlerM) :
    List (List Nat × List Nat) :=
  match h.help with
  | some htext => mapInsert h.name htext helps
  | none => helps

/-- Registering a list of handlers in order, starting from the empty registry. -/
def registerAll (hs : List PostHandlerM) : List (List Nat × List Nat) :=
  hs.foldl addPostHandler []

/-- Byte-wise lexicographic order on names, as `String`'s `Ord` in Rust. -/
def lexLe : List Nat → List Nat → Bool
  | [], _ => true
  | _ :: _, [] => false
  | a :: as, b :: bs => if a < b then true else if b < a then false else lexLe as bs

/-- Insert into a lexicographically sorted list. -/
def insertSorted (x : List Nat) : List (List Nat) → List (List Nat)
  | [] => [x]
  | y :: t => if lexLe x y then x :: y :: t else y :: insertSorted x t

/-- `keys.sort()`: sort names in ascending lexicographic order. -/
def sortLex (l : List (List Nat)) : List (List Nat) := l.foldr insertSorted []

/-- The reply text of the bare `!help` command: each key rendered as
backtick, key, backtick, newline. -/
def helpListText (keys : List (List Nat)) : List Nat :=
  (keys.map (fun k => 96 :: (k ++ [96, 10]))).flatten

/-- A byte matched by `[a-zA-Z0-9_-]`. -/
def isWordByte (b : Nat) : Bool :=
  (97 ≤ b && b ≤ 122) || (65 ≤ b && b ≤ 90) || (48 ≤ b && b ≤ 57) || b == 95 || b == 45

/-- Capture of `^!help ([a-zA-Z0-9_-]+).*`: the maximal run of word bytes
after the literal, required non-empty; the trailing `.*` is unanchored and
never fails. -/
def helpNameCapture (message : List Nat) : Option (List Nat) :=
  match stripPre (utf8 "!help ") message with
  | none => none
  | some r =>
    match r.takeWhile isWordByte with
    | [] => none
    | cap => some cap

/-- `Instance::process_help`: an exact `!help` lists the sorted keys of the
help registry; `!help <name>` replies with the registered help text or the
fixed `tutétrompé` reply; other messages do nothing. -/
def process_help (client : NotifClient) (helps : List (List Nat × List Nat))
    (post : GenericPost) : List Item × Except IError Unit :=
  if post.message = utf8 "!help" then
    match client.reply post (helpListText (sortLex (helps.map Prod.fst))) with
    | Except.ok _ =>
      ([Item.helpReply (helpListText (sortLex (helps.map Prod.fst)))], Except.ok ())
    | Except.error e =>
      ([Item.helpReply (helpListText (sortLex (helps.map Prod.fst)))],
       Except.error (IError.client e))
  else
    match helpNameCapture post.message with
    | some nm =>
      match mapLookup nm helps with
      | some m =>
        match client.reply post m with
        | Except.ok _ => ([Item.helpReply m], Except.ok ())
        | Except.error e => ([Item.helpReply m], Except.error (IError.client e))
      | none =>
        match client.reply post (utf8 "tutétrompé") with
        | Except.ok _ => ([Item.helpReply (utf8 "tutétrompé")], Except.ok ())
        | Except.error e =>
          ([Item.helpReply (utf8 "tutétrompé")], Except.error (IError.client e))
    | none => ([], Except.ok ())

/-- The handler loop of `Instance::process_event_post`: every handler is
invoked in registration order; a handler error is rendered with `{:?}` and
sent to the debug notifier, and a failing debug call falls back to
`println`; no error stops the loop or escapes it. -/
def dispatchPost (client : NotifClient) (post : GenericPost) :
    Nat → List PostHandlerM → List Item
  | _, [] => []
  | idx, h :: t =>
    Item.invoked idx ::
      (match h.handle post with
       | Except.ok _ => dispatchPost client post (idx + 1) t
       | Except.error e =>
         match client.debug (utf8 "error: " ++ e) with
         | Except.ok _ =>
           Item.debugged (utf8 "error: " ++ e) :: dispatchPost client post (idx + 1) t
         | Except.error _ =>
           Item.debugged (utf8 "error: " ++ e) ::
             Item.debugFailed (utf8 "error: " ++ e) :: dispatchPost client post (idx + 1) t)

/-- `Instance::process_event_post`: run the help command (whose failure
propagates via `?`), then dispatch to every handler. -/
def process_event_post (client : NotifClient) (helps : List (List Nat × List Nat))
    (handlers : List PostHandlerM) (post : GenericPost) : List Item × Except IError Unit :=
  match process_help client helps post with
  | (items, Except.error e) => (items, Except.error e)
  | (items, Except.ok _) => (items ++ dispatchPost client post 0 handlers, Except.ok ())

/-- `Instance::process_event`: posts are dispatched; edits, unsupported and
hello events are ignored; a status is interpreted as a loop-control signal. -/
def process_event (client : NotifClient) (helps : List (List Nat × List Nat))
    (handlers : List PostHandlerM) : Event → List Item × Except IError Unit
  | Event.post p => process_event_post client helps handlers p
  | Event.postEdited _ => ([], Except.ok ())
  | Event.unsupported _ => ([], Except.ok ())
  | Event.hello _ => ([], Except.ok ())
  | Event.status s =>
    match s.code with
    | StatusCode.ok => ([], Except.ok ())
    | StatusCode.error =>
      ([], Except.error (IError.status (s.error.getD StatusError.new_none).message))
    | StatusCode.unsupported => ([], Except.ok ())
    | StatusCode.unknown =>
      ([], Except.error (IError.other (s.error.getD StatusError.new_none).message))
  | Event.shutdown => ([], Except.ok ())

/-- `Instance::process_middlewares`: run each middleware in order, feeding
the possibly transformed event forward; a `No` drops the event (`none`), a
middleware failure aborts with a middleware error. -/
def process_middlewares : List MwM → Nat → Event → List Item × Except IError (Option Event)
  | [], _, ev => ([], Except.ok (some ev))
  | m :: rest, idx, ev =>
    match m ev with
    | Except.error e => ([Item.mw idx ev], Except.error (IError.middleware e))
    | Except.ok (Continue.yes nev) =>
      (Item.mw idx ev :: (process_middlewares rest (idx + 1) nev).1,
       (process_middlewares rest (idx + 1) nev).2)
    | Except.ok Continue.no => ([Item.mw idx ev], Except.ok none)

/-- `Instance::process`: middleware chain first; a dropped event is a
silent success, otherwise the surviving event is processed. -/
def process (client : NotifClient) (helps : List (List Nat × List Nat))
    (mws : List MwM) (handlers : List PostHandlerM) (ev : Event) :
    List Item × Except IError Unit :=
  match process_middlewares mws 0 ev with
  | (items, Except.error e) => (items, Except.error e)
  | (items, Except.ok none) => (items, Except.ok ())
  | (items, Except.ok (some ev2)) =>
    (items ++ (process_event client helps handlers ev2).1,
     (process_event client helps handlers ev2).2)

/-- C8: a `Status` event yields a fatal loop error exactly for the `Error`
and `Unknown` codes; `OK` and `Unsupported` succeed with no action, `Error`
carries the status's error message (the `new_none` default when the error
field is absent) as a status error, and `Unknown` carries the same message
as an `Other` error. -/
theorem c8_status_loop_control (client : NotifClient) (helps : List (List Nat × List Nat))
    (handlers : List PostHandlerM) (s : GenericStatus) :
    ((∃ e, (process_event client helps handlers (Event.status s)).2 = Except.error e) ↔
      (s.code = StatusCode.error ∨ s.code = StatusCode.unknown)) ∧
    (s.code = StatusCode.ok →
      process_event client helps handlers (Event.status s) = ([], Except.ok ())) ∧
    (s.code = StatusCode.unsupported →
      process_event client helps handlers (Event.status s) = ([], Except.ok ())) ∧
    (s.code = StatusCode.error →
      process_event client helps handlers (Event.status s) =
        ([], Except.error (IError.status (s.error.getD StatusError.new_none).message))) ∧
    (s.code = StatusCode.unknown →
      process_event client helps handlers (Event.status s) =
        ([], Except.error (IError.other (s.error.getD StatusError.new_none).message))) := by
  obtain ⟨code, err⟩ := s
  cases code <;>
    simp [process_event]

/-- Witness for C8 at concrete inputs. -/
theorem c8_status_loop_control_witness :
    (process_event ⟨fun _ _ => Except.ok (), fun _ => Except.ok ()⟩ [] []
        (Event.status ⟨StatusCode.error, some ⟨utf8 "bad", [], none, 0⟩⟩) =
      ([], Except.error (IError.status (utf8 "bad")))) ∧
    (process_event ⟨fun _ _ => Except.ok (), fun _ => Except.ok ()⟩ [] []
        (Event.status ⟨StatusCode.unknown, none⟩) =
      ([], Except.error (IError.other (utf8 "none")))) ∧
    (process_event ⟨fun _ _ => Except.ok (), fun _ => Except.ok ()⟩ [] []
        (Event.status ⟨StatusCode.ok, none⟩) = ([], Except.ok ())) := by
  refine ⟨?_, ?_, ?_⟩
  · exact (c8_status_loop_control ⟨fun _ _ => Except.ok (), fun _ => Except.ok ()⟩ [] []
      ⟨StatusCode.error, some ⟨utf8 "bad", [], none, 0⟩⟩).2.2.2.1 rfl
  · exact (c8_status_loop_control ⟨fun _ _ => Except.ok (), fun _ => Except.ok ()⟩ [] []
      ⟨StatusCode.unknown, none⟩).2.2.2.2 rfl
  · exact (c8_status_loop_control ⟨fun _ _ => Except.ok (), fun _ => Except.ok ()⟩ [] []
      ⟨StatusCode.ok, none⟩).2.1 rfl

theorem dispatchPost_invoked (client : NotifClient) (post : GenericPost) :
    ∀ (hs : List PostHandlerM) (idx j : Nat), j < hs.length →
    Item.invoked (idx + j) ∈ dispatchPost client post idx hs := by
  intro hs
  induction hs with
  | nil =>
    intro idx j h
    simp at h
  | cons h t ih =>
    intro idx j hj
    cases j with
    | zero =>
      simp [dispatchPost]
    | succ j' =>
      have hmem := ih (idx + 1) j' (by simpa using hj)
      have hidx : idx + (j' + 1) = (idx + 1) + j' := by omega
      rw [hidx]
      unfold dispatchPost
      refine List.mem_cons_of_mem _ ?_
      split
      · exact hmem
      · split
        · exact List.mem_cons_of_mem _ hmem
        · exact List.mem_cons_of_mem _ (List.mem_cons_of_mem _ hmem)

theorem dispatchPost_debugged (client : NotifClient) (post : GenericPost) :
    ∀ (hs : List PostHandlerM) (idx i : Nat) (hi : i < hs.length) (e : List Nat),
    (hs.get ⟨i, hi⟩).handle post = Except.error e →
    Item.debugged (utf8 "error: " ++ e) ∈ dispatchPost client post idx hs := by
  intro hs
  induction hs with
  | nil =>
    intro idx i hi
    simp at hi
  | cons h t ih =>
    intro idx i hi e hfail
    cases i with
    | zero =>
      simp only [List.get] at hfail
      unfold dispatchPost
      refine List.mem_cons_of_mem _ ?_
      rw [hfail]
      cases hdbg : client.debug (utf8 "error: " ++ e) with
      | ok u => simp [hdbg]
      | error e2 => simp [hdbg]
    | succ i' =>
      have hi' : i' < t.length := by simpa using hi
      have hfail' : (t.get ⟨i', hi'⟩).handle post = Except.error e := hfail
      have hmem := ih (idx + 1) i' hi' e hfail'
      unfold dispatchPost
      refine List.mem_cons_of_mem _ ?_
      split
      · exact hmem
      · split
        · exact List.mem_cons_of_mem _ hmem
        · exact List.mem_cons_of_mem _ (List.mem_cons_of_mem _ hmem)

/-- C5: when handler `i` fails on a post (and the preceding built-in help
step succeeds), `process_event_post` still invokes every registered
handler on that post, reports the rendered error to the debug notifier,
and returns success — the handler error never becomes a loop error. -/
theorem c5_handler_isolation (client : NotifClient) (helps : List (List Nat × List Nat))
    (handlers : List PostHandlerM) (post : GenericPost) (i : Nat) (hi : i < handlers.length)
    (e : List Nat)
    (hfail : (handlers.get ⟨i, hi⟩).handle post = Except.error e)
    (hhelp : (process_help client helps post).2 = Except.ok ()) :
    (process_event_post client helps handlers post).2 = Except.ok () ∧
    (∀ j, j < handlers.length →
      Item.invoked j ∈ (process_event_post client helps handlers post).1) ∧
    Item.debugged (utf8 "error: " ++ e) ∈ (process_event_post client helps handlers post).1 := by
  unfold process_event_post
  rcases hph : process_help client helps post with ⟨items, res⟩
  rw [hph] at hhelp
  simp only at hhelp
  subst hhelp
  refine ⟨rfl, ?_, ?_⟩
  · intro j hj
    have := dispatchPost_invoked client post handlers 0 j hj
    rw [Nat.zero_add] at this
    exact List.mem_append_right items this
  · exact List.mem_append_right items
      (dispatchPost_debugged client post handlers 0 i hi e hfail)

/-- An instance client that accepts every reply and debug call. -/
def notifOk : NotifClient := ⟨fun _ _ => Except.ok (), fun _ => Except.ok ()⟩

/-- A handler that always fails; it provides no help text. -/
def handlerBad : PostHandlerM := ⟨utf8 "bad", none, fun _ => Except.error (utf8 "boom")⟩

/-- A handler that always succeeds, with help text. -/
def handlerGood : PostHandlerM := ⟨utf8 "good", some (utf8 "good help"), fun _ => Except.ok ()⟩

/-- Witness for C5 at concrete inputs: the first handler fails, the second
still runs and the dispatch succeeds. -/
theorem c5_handler_isolation_witness :
    (process_event_post notifOk [] [handlerBad, handlerGood] postHello).2 = Except.ok () ∧
    Item.invoked 1 ∈ (process_event_post notifOk [] [handlerBad, handlerGood] postHello).1 ∧
    Item.debugged (utf8 "error: " ++ utf8 "boom") ∈
      (process_event_post notifOk [] [handlerBad, handlerGood] postHello).1 := by
  have h := c5_handler_isolation notifOk [] [handlerBad, handlerGood] postHello 0
    (by decide) (utf8 "boom") rfl (by decide)
  exact ⟨h.1, h.2.1 1 (by decide), h.2.2⟩

theorem process_middlewares_append (mws1 : List MwM) :
    ∀ (idx : Nat) (ev ev1 : Event) (items1 : List Item),
    process_middlewares mws1 idx ev = (items1, Except.ok (some ev1)) →
    ∀ rest, process_middlewares (mws1 ++ rest) idx ev =
      (items1 ++ (process_middlewares rest (idx + mws1.length) ev1).1,
       (process_middlewares rest (idx + mws1.length) ev1).2) := by
  induction mws1 with
  | nil =>
    intro idx ev ev1 items1 h rest
    unfold process_middlewares at h
    simp only [Prod.mk.injEq, Option.some.injEq] at h
    obtain ⟨h1, h2⟩ := h
    have hev : ev = ev1 := by
      have := Except.ok.inj h2
      exact Option.some.inj this
    subst hev
    subst h1
    simp
  | cons m1 t ih =>
    intro idx ev ev1 items1 h rest
    unfold process_middlewares at h
    cases hm : m1 ev with
    | error e =>
      rw [hm] at h
      simp at h
    | ok c =>
      cases c with
      | no =>
        rw [hm] at h
        simp at h
      | yes nev =>
        rw [hm] at h
        simp only [Prod.mk.injEq] at h
        obtain ⟨h1, h2⟩ := h
        rcases hpt : process_middlewares t (idx + 1) nev with ⟨itemst, rest2⟩
        rw [hpt] at h1 h2
        simp only at h1 h2
        have hrun := ih (idx + 1) nev ev1 itemst (by rw [hpt, h2]) rest
        show (match m1 ev with
          | Except.error e => ([Item.mw idx ev], Except.error (IError.middleware e))
          | Except.ok (Continue.yes nev) =>
            (Item.mw idx ev :: (process_middlewares (t ++ rest) (idx + 1) nev).1,
             (process_middlewares (t ++ rest) (idx + 1) nev).2)
          | Except.ok Continue.no => ([Item.mw idx ev], Except.ok none)) =
          (items1 ++ (process_middlewares rest (idx + (t.length + 1)) ev1).1,
           (process_middlewares rest (idx + (t.length + 1)) ev1).2)
        rw [hm]
        dsimp only
        rw [hrun]
        have hlen : (idx + 1) + t.length = idx + (t.length + 1) := by omega
        rw [hlen, ← h1]
        simp

theorem process_middlewares_items_mw :
    ∀ (mws : List MwM) (idx : Nat) (ev : Event) (it : Item),
    it ∈ (process_middlewares mws idx ev).1 → ∃ i e2, it = Item.mw i e2 := by
  intro mws
  induction mws with
  | nil =>
    intro idx ev it h
    simp [process_middlewares] at h
  | cons m t ih =>
    intro idx ev it h
    unfold process_middlewares at h
    cases hm : m ev with
    | error e =>
      rw [hm] at h
      simp at h
      exact ⟨idx, ev, h⟩
    | ok c =>
      cases c with
      | no =>
        rw [hm] at h
        simp at h
        exact ⟨idx, ev, h⟩
      | yes nev =>
        rw [hm] at h
        simp only [List.mem_cons] at h
        rcases h with h | h
        · exact ⟨idx, ev, h⟩
        · exact ih (idx + 1) nev it h

/-- C6: a middleware returning `No` at position `i` ends the chain — the
trace is exactly the invocations of middlewares `0..i`, no later middleware
runs, the whole `process` of the event succeeds with no handler or help
step in its trace (every item is a middleware invocation); and a
middleware returning `Yes` feeds its output event to the next middleware
in the chain. -/
theorem c6_middleware_short_circuit :
    (∀ (client : NotifClient) (helps : List (List Nat × List Nat)) (mws1 : List MwM)
       (m : MwM) (mws2 : List MwM) (handlers : List PostHandlerM) (ev ev1 : Event)
       (items1 : List Item),
       process_middlewares mws1 0 ev = (items1, Except.ok (some ev1)) →
       m ev1 = Except.ok Continue.no →
       process_middlewares (mws1 ++ m :: mws2) 0 ev =
         (items1 ++ [Item.mw mws1.length ev1], Except.ok none) ∧
       process client helps (mws1 ++ m :: mws2) handlers ev =
         (items1 ++ [Item.mw mws1.length ev1], Except.ok ()) ∧
       (∀ it, it ∈ (process client helps (mws1 ++ m :: mws2) handlers ev).1 →
         ∃ i e2, it = Item.mw i e2)) ∧
    (∀ (m : MwM) (rest : List MwM) (idx : Nat) (ev nev : Event),
       m ev = Except.ok (Continue.yes nev) →
       process_middlewares (m :: rest) idx ev =
         (Item.mw idx ev :: (process_middlewares rest (idx + 1) nev).1,
          (process_middlewares rest (idx + 1) nev).2)) := by
  constructor
  · intro client helps mws1 m mws2 handlers ev ev1 items1 hchain hno
    have hpm : process_middlewares (mws1 ++ m :: mws2) 0 ev =
        (items1 ++ [Item.mw mws1.length ev1], Except.ok none) := by
      have happ := process_middlewares_append mws1 0 ev ev1 items1 hchain (m :: mws2)
      rw [happ]
      have hstep : process_middlewares (m :: mws2) (0 + mws1.length) ev1 =
          ([Item.mw (0 + mws1.length) ev1], Except.ok none) := by
        unfold process_middlewares
        rw [hno]
      rw [hstep]
      simp
    refine ⟨hpm, ?_, ?_⟩
    · unfold process
      rw [hpm]
    · intro it hmem
      unfold process at hmem
      rw [hpm] at hmem
      simp only at hmem
      exact process_middlewares_items_mw (mws1 ++ m :: mws2) 0 ev it (by rw [hpm]; exact hmem)
  · intro m rest idx ev nev hyes
    conv =>
      lhs
      rw [process_middlewares]
    rw [hyes]

/-- Witness for C6 at concrete inputs: one transforming middleware followed
by a vetoing middleware; the event is dropped, no handler runs, processing
succeeds. -/
theorem c6_middleware_short_circuit_witness :
    (process_middlewares ((fun e => Except.ok (Continue.yes e)) :: [fun _ => Except.ok Continue.no])
        0 (Event.post postHello) =
      ([Item.mw 0 (Event.post postHello), Item.mw 1 (Event.post postHello)], Except.ok none)) ∧
    (process notifOk [] ((fun e => Except.ok (Continue.yes e)) :: [fun _ => Except.ok Continue.no])
        [handlerBad] (Event.post postHello) =
      ([Item.mw 0 (Event.post postHello), Item.mw 1 (Event.post postHello)], Except.ok ())) ∧
    (process_middlewares ((fun e => Except.ok (Continue.yes e)) :: ([] : List MwM)) 5
        (Event.post postHello) =
      (Item.mw 5 (Event.post postHello) ::
         (process_middlewares [] (5 + 1) (Event.post postHello)).1,
       (process_middlewares [] (5 + 1) (Event.post postHello)).2)) := by
  have h := c6_middleware_short_circuit.1 notifOk [] [fun e => Except.ok (Continue.yes e)]
    (fun _ => Except.ok Continue.no) [] [handlerBad] (Event.post postHello)
    (Event.post postHello) [Item.mw 0 (Event.post postHello)] rfl rfl
  exact ⟨h.1, h.2.1,
    c6_middleware_short_circuit.2 (fun e => Except.ok (Continue.yes e)) [] 5
      (Event.post postHello) (Event.post postHello) rfl⟩

theorem lexLe_total : ∀ a b : List Nat, lexLe a b = true ∨ lexLe b a = true := by
  intro a
  induction a with
  | nil => intro b; left; rfl
  | cons x xs ih =>
    intro b
    cases b with
    | nil => right; rfl
    | cons y ys =>
      by_cases hxy : x < y
      · left
        simp [lexLe, hxy]
      · by_cases hyx : y < x
        · right
          simp [lexLe, hyx]
        · rcases ih ys with h | h
          · left
            simp [lexLe, hxy, hyx, h]
          · right
            simp [lexLe, hxy, hyx, h]

theorem lexLe_trans : ∀ a b c : List Nat,
    lexLe a b = true → lexLe b c = true → lexLe a c = true := by
  intro a
  induction a with
  | nil => intro b c _ _; rfl
  | cons x xs ih =>
    intro b c hab hbc
    cases b with
    | nil => simp [lexLe] at hab
    | cons y ys =>
      cases c with
      | nil => simp [lexLe] at hbc
      | cons z zs =>
        unfold lexLe at hab hbc ⊢
        by_cases h1 : x < y
        · by_cases h2 : y < z
          · have hxz : x < z := by omega
            simp [hxz]
          · by_cases h3 : z < y
            · simp [h2, h3] at hbc
            · have hyz : y = z := by omega
              subst hyz
              simp [h1]
        · by_cases h4 : y < x
          · simp [h1, h4] at hab
          · have hxy : x = y := by omega
            subst hxy
            by_cases h2 : x < z
            · simp [h2]
            · by_cases h3 : z < x
              · simp [h2, h3] at hbc
              · simp [h1, h4] at hab
                simp [h2, h3] at hbc
                simp [h2, h3, ih ys zs hab hbc]

theorem insertSorted_perm (x : List Nat) :
    ∀ l : List (List Nat), (insertSorted x l).Perm (x :: l) := by
  intro l
  induction l with
  | nil => simp [insertSorted]
  | cons y t ih =>
    by_cases h : lexLe x y
    · simp [insertSorted, h]
    · simp only [insertSorted, if_neg h]
      exact (ih.cons y).trans (List.Perm.swap x y t)

theorem insertSorted_pairwise (x : List Nat) :
    ∀ l : List (List Nat), List.Pairwise (fun a b => lexLe a b = true) l →
    List.Pairwise (fun a b => lexLe a b = true) (insertSorted x l) := by
  intro l
  induction l with
  | nil =>
    intro _
    simp [insertSorted]
  | cons y t ih =>
    intro hl
    rw [List.pairwise_cons] at hl
    by_cases h : lexLe x y
    · simp only [insertSorted, if_pos h]
      rw [List.pairwise_cons]
      constructor
      · intro z hz
        rcases List.mem_cons.mp hz with hz | hz
        · subst hz
          exact h
        · exact lexLe_trans x y z h (hl.1 z hz)
      · rw [List.pairwise_cons]
        exact hl
    · simp only [insertSorted, if_neg h]
      rw [List.pairwise_cons]
      constructor
      · intro z hz
        have hz2 : z ∈ x :: t := (insertSorted_perm x t).mem_iff.mp hz
        rcases List.mem_cons.mp hz2 with hz2 | hz2
        · rw [hz2]
          rcases lexLe_total x y with ht | ht
          · exact absurd ht h
          · exact ht
        · exact hl.1 z hz2
      · exact ih hl.2

theorem sortLex_perm (l : List (List Nat)) : (sortLex l).Perm l := by
  induction l with
  | nil => rfl
  | cons x t ih =>
    have : sortLex (x :: t) = insertSorted x (sortLex t) := rfl
    rw [this]
    exact (insertSorted_perm x (sortLex t)).trans (ih.cons x)

theorem sortLex_pairwise (l : List (List Nat)) :
    List.Pairwise (fun a b => lexLe a b = true) (sortLex l) := by
  induction l with
  | nil => simp [sortLex]
  | cons x t ih =>
    have : sortLex (x :: t) = insertSorted x (sortLex t) := rfl
    rw [this]
    exact insertSorted_pairwise x (sortLex t) ih

theorem mapInsert_keys {K V : Type} [DecidableEq K] (k : K) (v : V) :
    ∀ st : List (K × V), (mapInsert k v st).map Prod.fst =
      if k ∈ st.map Prod.fst then st.map Prod.fst else st.map Prod.fst ++ [k] := by
  intro st
  induction st with
  | nil => simp [mapInsert]
  | cons p t ih =>
    obtain ⟨a, b⟩ := p
    by_cases h : a = k
    · subst h
      simp [mapInsert]
    · have hne : ¬ (k = a) := fun hh => h hh.symm
      simp only [mapInsert, if_neg h, List.map_cons, List.mem_cons, hne, false_or]
      by_cases hm : k ∈ t.map Prod.fst
      · simp [hm, ih]
      · simp [hm, ih]

theorem mapInsert_keys_nodup {K V : Type} [DecidableEq K] (k : K) (v : V)
    (st : List (K × V)) (h : (st.map Prod.fst).Nodup) :
    ((mapInsert k v st).map Prod.fst).Nodup := by
  rw [mapInsert_keys]
  by_cases hm : k ∈ st.map Prod.fst
  · simp [hm, h]
  · simp only [hm, if_neg, if_false]
    rw [List.nodup_append]
    exact ⟨h, List.nodup_singleton k, by simpa using hm⟩

theorem registerAll_nodup_aux :
    ∀ (hs : List PostHandlerM) (acc : List (List Nat × List Nat)),
    (acc.map Prod.fst).Nodup → ((hs.foldl addPostHandler acc).map Prod.fst).Nodup := by
  intro hs
  induction hs with
  | nil => intro acc h; exact h
  | cons hd t ih =>
    intro acc h
    have hstep : ((addPostHandler acc hd).map Prod.fst).Nodup := by
      unfold addPostHandler
      cases hd.help with
      | none => exact h
      | some htext => exact mapInsert_keys_nodup hd.name htext acc h
    exact ih (addPostHandler acc hd) hstep

/-- C9 (amended): the bare `!help` reply lists the names in the help
registry — that is, the registered handler names that provided help text,
not all registered names — sorted lexicographically (`sortLex` is a sorted
permutation); `!help <name>` replies with the registered help text when the
name is in the registry and with the fixed `tutétrompé` reply otherwise;
the registry built at registration time has unique keys and the last
registration wins on a name collision. -/
theorem c9_help_command :
    (∀ (client : NotifClient) (helps : List (List Nat × List Nat)) (post : GenericPost),
       post.message = utf8 "!help" →
       client.reply post (helpListText (sortLex (helps.map Prod.fst))) = Except.ok () →
       process_help client helps post =
         ([Item.helpReply (helpListText (sortLex (helps.map Prod.fst)))], Except.ok ())) ∧
    (∀ l : List (List Nat), (sortLex l).Perm l ∧
       List.Pairwise (fun a b => lexLe a b = true) (sortLex l)) ∧
    (∀ (client : NotifClient) (helps : List (List Nat × List Nat)) (post : GenericPost)
       (nm m : List Nat),
       post.message ≠ utf8 "!help" →
       helpNameCapture post.message = some nm →
       mapLookup nm helps = some m →
       client.reply post m = Except.ok () →
       process_help client helps post = ([Item.helpReply m], Except.ok ())) ∧
    (∀ (client : NotifClient) (helps : List (List Nat × List Nat)) (post : GenericPost)
       (nm : List Nat),
       post.message ≠ utf8 "!help" →
       helpNameCapture post.message = some nm →
       mapLookup nm helps = none →
       client.reply post (utf8 "tutétrompé") = Except.ok () →
       process_help client helps post =
         ([Item.helpReply (utf8 "tutétrompé")], Except.ok ())) ∧
    (∀ hs : List PostHandlerM, ((registerAll hs).map Prod.fst).Nodup) ∧
    (∀ (helps : List (List Nat × List Nat)) (nm htext : List Nat)
       (f : GenericPost → Except (List Nat) Unit),
       mapLookup nm (addPostHandler helps ⟨nm, some htext, f⟩) = some htext) := by
  refine ⟨?_, ?_, ?_, ?_, ?_, ?_⟩
  · intro client helps post hmsg hrep
    unfold process_help
    rw [if_pos hmsg, hrep]
  · intro l
    exact ⟨sortLex_perm l, sortLex_pairwise l⟩
  · intro client helps post nm m hne hcap hlook hrep
    unfold process_help
    rw [if_neg hne, hcap]
    simp only
    rw [hlook]
    simp only
    rw [hrep]
  · intro client helps post nm hne hcap hlook hrep
    unfold process_help
    rw [if_neg hne, hcap]
    simp only
    rw [hlook]
    simp only
    rw [hrep]
  · intro hs
    exact registerAll_nodup_aux hs [] (by simp)
  · intro helps nm htext f
    unfold addPostHandler
    simp only
    exact mapLookup_insert nm htext helps

/-- A bare `!help` post. -/
def postHelpCmd : GenericPost := ⟨utf8 "c1", utf8 "!help", utf8 "u1", [], [], [], utf8 "t1"⟩

/-- A handler registered without help text. -/
def handlerNoHelp : PostHandlerM := ⟨utf8 "a", none, fun _ => Except.ok ()⟩

/-- C9 counterexample: with one registered handler named `a` that provides
no help text, the `!help` reply is empty rather than listing `a` — the
listing covers the help registry, not all registered handler names. -/
theorem c9_help_command_counterexample :
    (process_help notifOk (registerAll [handlerNoHelp]) postHelpCmd).1 =
      [Item.helpReply []] ∧
    helpListText (sortLex [utf8 "a"]) = [96, 97, 96, 10] ∧
    ([] : List Nat) ≠ [96, 97, 96, 10] := by
  refine ⟨by decide, by decide, by decide⟩

/-- A `!help edits`-style post asking for a registered name. -/
def postHelpName : GenericPost := ⟨utf8 "c1", utf8 "!help a", utf8 "u1", [], [], [], utf8 "t1"⟩

/-- A `!help zz` post asking for an unregistered name. -/
def postHelpMiss : GenericPost := ⟨utf8 "c1", utf8 "!help zz", utf8 "u1", [], [], [], utf8 "t1"⟩

/-- Witness for C9 at concrete inputs. -/
theorem c9_help_command_witness :
    (process_help notifOk [(utf8 "b", utf8 "hb"), (utf8 "a", utf8 "ha")] postHelpCmd =
      ([Item.helpReply (helpListText (sortLex [utf8 "b", utf8 "a"]))], Except.ok ())) ∧
    ((sortLex [utf8 "b", utf8 "a"]).Perm [utf8 "b", utf8 "a"] ∧
      List.Pairwise (fun a b => lexLe a b = true) (sortLex [utf8 "b", utf8 "a"])) ∧
    (process_help notifOk [(utf8 "a", utf8 "ha")] postHelpName =
      ([Item.helpReply (utf8 "ha")], Except.ok ())) ∧
    (process_help notifOk [(utf8 "a", utf8 "ha")] postHelpMiss =
      ([Item.helpReply (utf8 "tutétrompé")], Except.ok ())) ∧
    ((registerAll [handlerNoHelp, handlerGood]).map Prod.fst).Nodup ∧
    mapLookup (utf8 "a") (addPostHandler [(utf8 "a", utf8 "old")]
      ⟨utf8 "a", some (utf8 "new"), fun _ => Except.ok ()⟩) = some (utf8 "new") := by
  refine ⟨?_, ?_, ?_, ?_, ?_, ?_⟩
  · exact c9_help_command.1 notifOk [(utf8 "b", utf8 "hb"), (utf8 "a", utf8 "ha")]
      postHelpCmd rfl rfl
  · exact c9_help_command.2.1 [utf8 "b", utf8 "a"]
  · exact c9_help_command.2.2.1 notifOk [(utf8 "a", utf8 "ha")] postHelpName
      (utf8 "a") (utf8 "ha") (by decide) (by decide) (by decide) rfl
  · exact c9_help_command.2.2.2.1 notifOk [(utf8 "a", utf8 "ha")] postHelpMiss
      (utf8 "zz") (by decide) (by decide) (by decide) rfl
  · exact c9_help_command.2.2.2.2.1 [handlerNoHelp, handlerGood]
  · exact c9_help_command.2.2.2.2.2 [(utf8 "a", utf8 "old")] (utf8 "a") (utf8 "new")
      (fun _ => Except.ok ())
